import Mathlib

/-!
Row reduction and Gauss-Jordan inversion of xtensor-acts.

A shallow embedding of `xt_pg::xt_utils` (`include/utils.hpp`): `swap_row`,
`reduce_echelon` and `invert_gauss_jordan`, followed by the properties of the
specification that were checked against it.

Modelling conventions.

* `xt::xarray<Ty>` of dimension two is a shape `(shape0, shape1)` together with
  its elements, addressed as `mat(i, j)`.  Elements are kept as a total function
  of the two indices; an access outside the shape reads or writes a cell that
  no in-shape access ever sees.  In C++ such an access has no defined
  behaviour: the definitions named `_checked` repeat the code with every access
  checked against the shape and give `none` at the first one outside it.
* The C++ functions mutate their arguments in place and may throw.  Every
  function therefore returns an `Outcome` together with the final contents of
  the arrays it was given, so that the state left behind by a throw is visible.
* `swap_row` takes two references that may alias (`reduce_echelon` passes the
  same array twice).  References are names into a `Store`.
* `size_t` values are natural numbers: every index the code computes is bounded
  by an array extent, which is far below `2^64`.
* `Ty` is any field with decidable equality (the exact counterpart of
  `double`).
-/

namespace xt_pg

/-- The exceptions the code raises. -/
inductive Error where
  /-- The `std::out_of_range` raised by `xt::check_access`. -/
  | out_of_range
  /-- The `std::runtime_error` with text "Incompatible row dimension!". -/
  | runtime_error
  deriving DecidableEq, Repr

/-- How a call ends: it returns, or it throws. -/
inductive Outcome where
  | done
  | thrown (e : Error)
  deriving DecidableEq, Repr

/-- A two-dimensional `xt::xarray<Ty>`: `shape()[0]`, `shape()[1]` and the
elements `mat(i, j)`. -/
structure XArray (Ty : Type) where
  shape0 : Nat
  shape1 : Nat
  data : Nat → Nat → Ty

/-- The assignment `mat(i, j) = v`. -/
def XArray.set {Ty : Type} (mat : XArray Ty) (i j : Nat) (v : Ty) : XArray Ty :=
  { mat with data := fun i' j' => if i' = i ∧ j' = j then v else mat.data i' j' }

/-- An array built from a brace initialiser such as `{ {0, 1}, {2, 0} }`. -/
def XArray.ofLists {Ty : Type} [Zero Ty] (l : List (List Ty)) : XArray Ty :=
  { shape0 := l.length
    shape1 := (l.headD []).length
    data := fun i j => (l.getD i []).getD j 0 }

/-- The elements of an array inside its shape, row by row. -/
def XArray.toLists {Ty : Type} (mat : XArray Ty) : List (List Ty) :=
  (List.range mat.shape0).map fun i => (List.range mat.shape1).map fun j => mat.data i j

/-- A one-dimensional array holding a copy of one row: the result of
`xt::xarray<Ty> x_view = xt::view(mat, row)`. -/
structure XRow (Ty : Type) where
  size : Nat
  data : Nat → Ty

/-- Copy of row `row` of `mat`, as a total read.  The source makes no bounds
check when the copy is taken; for a row index outside the shape the C++ copy
reads outside the buffer, which this definition does not show and
`XArray.view_checked` does. -/
def XArray.view {Ty : Type} (mat : XArray Ty) (row : Nat) : XRow Ty :=
  { size := mat.shape1, data := fun i => mat.data row i }

/-- The arrays that the references of a call name. -/
abbrev Store (Ref Ty : Type) := Ref → XArray Ty

/-- The assignment `mat(i, j) = v` through the reference `mat`. -/
def Store.assign {Ref Ty : Type} [DecidableEq Ref] (s : Store Ref Ty) (mat : Ref)
    (i j : Nat) (v : Ty) : Store Ref Ty :=
  fun r => if r = mat then (s mat).set i j v else s r

/-- Modelled from the spec: `xt::check_access(shape, row)` belongs to the xtensor
library, which is not part of the sources.  It is the bounds check of the row
index ("Make sure the rows are not out of bound"): the access is allowed when
`row` is below the row count `shape[0]`, and `std::out_of_range` is thrown
otherwise.  The result is `true` when the access is allowed. -/
def check_access (shape : Nat × Nat) (row : Nat) : Bool :=
  decide (row < shape.1)

/-- The body of the exchange loop of `swap_row` for one index `i`. -/
def swap_row_step {Ref Ty : Type} [DecidableEq Ref] (mat0 mat1 : Ref) (row0 row1 : Nat)
    (x_view0 x_view1 : XRow Ty) (s : Store Ref Ty) (i : Nat) : Store Ref Ty :=
  (s.assign mat0 row0 i (x_view1.data i)).assign mat1 row1 i (x_view0.data i)

/-- The function `xt_utils::swap_row(mat0, mat1, row0, row1)`: two row copies,
the two bounds checks, the dimension check, then the exchange loop. -/
def swap_row {Ref Ty : Type} [DecidableEq Ref] (s : Store Ref Ty) (mat0 mat1 : Ref)
    (row0 row1 : Nat) : Outcome × Store Ref Ty :=
  let x_view0 := (s mat0).view row0
  let x_view1 := (s mat1).view row1
  let shape0 := ((s mat0).shape0, (s mat0).shape1)
  let shape1 := ((s mat1).shape0, (s mat1).shape1)
  -- Make sure the rows are not out of bound
  if check_access shape0 row0 = false then (Outcome.thrown Error.out_of_range, s)
  else if check_access shape1 row1 = false then (Outcome.thrown Error.out_of_range, s)
  -- Make sure the row dimensions are compatible
  else if shape0.1 ≠ shape1.1 then (Outcome.thrown Error.runtime_error, s)
  else
    (Outcome.done,
      (List.range x_view0.size).foldl (swap_row_step mat0 mat1 row0 row1 x_view0 x_view1) s)

/-- The call `swap_row(mat, mat, row0, row1)` with both references naming the
same array. -/
def swap_row_same {Ty : Type} (mat : XArray Ty) (row0 row1 : Nat) : Outcome × XArray Ty :=
  let r := swap_row (fun _ : Unit => mat) () () row0 row1
  (r.1, r.2 ())

/-- The pivot search of `reduce_echelon` for column `col`: the loop
`for (row = col; row < shape[0] && !nz_found; row++)`, returning
`(nz_idx, nz_found)`. -/
def find_nz {Ty : Type} [Zero Ty] [DecidableEq Ty] (mat : XArray Ty) (shape0 col : Nat) :
    Nat × Bool :=
  (List.range' col (shape0 - col)).foldl
    (fun (st : Nat × Bool) row =>
      if st.2 then st
      else if mat.data row col ≠ 0 then (row, true) else st)
    (2 ^ 64 - 1, false)

/-- The loop `for (i = 0; i < shape[1]; i++) mat(nz_idx, i) /= pivot`. -/
def divide_row {Ty : Type} [Field Ty] (mat : XArray Ty) (shape1 nz_idx : Nat) (pivot : Ty) :
    XArray Ty :=
  (List.range shape1).foldl (fun m i => m.set nz_idx i (m.data nz_idx i / pivot)) mat

/-- The loop `for (j = 0; j < shape[1]; j++) mat(i, j) -= mat(col, j) * lambda`. -/
def gauss_move {Ty : Type} [Field Ty] (mat : XArray Ty) (shape1 col i : Nat) (lambda : Ty) :
    XArray Ty :=
  (List.range shape1).foldl (fun m j => m.set i j (m.data i j - m.data col j * lambda)) mat

/-- The loop over all rows `i` that zeroes out the entries above and below the
pivot: rows with `i != col && mat(i, col) != 0` get a Gauss move. -/
def eliminate {Ty : Type} [Field Ty] [DecidableEq Ty] (mat : XArray Ty)
    (shape0 shape1 col : Nat) : XArray Ty :=
  (List.range shape0).foldl
    (fun m i =>
      if i ≠ col ∧ m.data i col ≠ 0 then gauss_move m shape1 col i (m.data i col) else m)
    mat

/-- The body of the column loop of `reduce_echelon` for column `col`. -/
def reduce_col {Ty : Type} [Field Ty] [DecidableEq Ty] (shape0 shape1 : Nat)
    (mat : XArray Ty) (col : Nat) : Outcome × XArray Ty :=
  let nz := find_nz mat shape0 col
  let nz_idx := nz.1
  let nz_found := nz.2
  if nz_found then
    -- Move the row to allow for the zero rows to cascade down
    let swapped := if nz_idx ≠ col then swap_row_same mat nz_idx col else (Outcome.done, mat)
    match swapped with
    | (Outcome.thrown e, mat) => (Outcome.thrown e, mat)
    | (Outcome.done, mat) =>
      let pivot := mat.data col col
      -- Reduce the row to echelon form by dividing each element by pivot
      let mat := divide_row mat shape1 nz_idx pivot
      -- Apply a gauss move to zero out the elements in the rows above and below
      (Outcome.done, eliminate mat shape0 shape1 col)
  else (Outcome.done, mat)

/-- The column loop of `reduce_echelon` run for the columns `0 .. k-1`; a throw
ends the loop.  `shape0` and `shape1` are the extents read once at entry. -/
def reduce_cols {Ty : Type} [Field Ty] [DecidableEq Ty] (shape0 shape1 : Nat)
    (mat : XArray Ty) (k : Nat) : Outcome × XArray Ty :=
  (List.range k).foldl
    (fun (st : Outcome × XArray Ty) col =>
      match st with
      | (Outcome.thrown e, m) => (Outcome.thrown e, m)
      | (Outcome.done, m) => reduce_col shape0 shape1 m col)
    (Outcome.done, mat)

/-- The function `xt_utils::reduce_echelon(mat)`: the column loop over
`0 .. shape[1]-1`. -/
def reduce_echelon {Ty : Type} [Field Ty] [DecidableEq Ty] (mat : XArray Ty) :
    Outcome × XArray Ty :=
  let shape0 := mat.shape0
  let shape1 := mat.shape1
  reduce_cols shape0 shape1 mat shape1

/-- The augmented array `mat_` that `invert_gauss_jordan` builds: shape
`(shape[0], 2 * shape[0])`, the block `mat(i, j)` with `i, j < shape[0]` on the
left and the identity on the right. -/
def augment {Ty : Type} [Field Ty] (mat : XArray Ty) : XArray Ty :=
  let am_shape0 := mat.shape0
  let am_shape1 := 2 * mat.shape0
  let mat_ : XArray Ty := { shape0 := am_shape0, shape1 := am_shape1, data := fun _ _ => 0 }
  -- Fill the original matrix
  let mat_ := (List.range am_shape0).foldl
    (fun m i => (List.range am_shape0).foldl (fun m j => m.set i j (mat.data i j)) m) mat_
  -- Fill the identity matrix
  (List.range am_shape0).foldl
    (fun m i => (List.range' am_shape0 (am_shape1 - am_shape0)).foldl
      (fun m j => m.set i j (if j - am_shape0 = i then 1 else 0)) m) mat_

/-- The loop of `invert_gauss_jordan` that copies the right half of the reduced
array `mat_` into `mat`. -/
def copy_back {Ty : Type} (mat mat_ : XArray Ty) (am_shape0 am_shape1 : Nat) : XArray Ty :=
  (List.range am_shape0).foldl
    (fun m i => (List.range' am_shape0 (am_shape1 - am_shape0)).foldl
      (fun m j => m.set i (j - am_shape0) (mat_.data i j)) m) mat

/-- The function `xt_utils::invert_gauss_jordan(mat)`: augment, reduce, copy the
right half back; a throw of the reduction leaves `mat` as it was. -/
def invert_gauss_jordan {Ty : Type} [Field Ty] [DecidableEq Ty] (mat : XArray Ty) :
    Outcome × XArray Ty :=
  let am_shape0 := mat.shape0
  let am_shape1 := 2 * mat.shape0
  -- Reduce the augmented matrix to echelon form and extract the inverse
  match reduce_echelon (augment mat) with
  | (Outcome.thrown e, _) => (Outcome.thrown e, mat)
  | (Outcome.done, mat_) => (Outcome.done, copy_back mat mat_ am_shape0 am_shape1)

/-! ## Notions of the specification -/

/-- The matrix product `a × b`. -/
def XArray.mul {Ty : Type} [Field Ty] (a b : XArray Ty) : XArray Ty :=
  { shape0 := a.shape0
    shape1 := b.shape1
    data := fun i j => ((List.range a.shape1).map fun k => a.data i k * b.data k j).sum }

/-- The matrix `Identity(n)`. -/
def XArray.identity {Ty : Type} [Field Ty] (n : Nat) : XArray Ty :=
  { shape0 := n, shape1 := n, data := fun i j => if i = j then 1 else 0 }

/-- The column of the leading (leftmost non-zero) entry of row `i`, if the row
has a non-zero entry. -/
def XArray.leading {Ty : Type} [Zero Ty] [DecidableEq Ty] (mat : XArray Ty) (i : Nat) :
    Option Nat :=
  (List.range mat.shape1).find? fun j => decide (mat.data i j ≠ 0)

/-- Reduced row-echelon form, in the words of the specification: every all-zero
row lies below every non-zero row, the leading entry of a non-zero row is strictly
to the right of the leading entry of the row above, each leading entry is `1`,
and each leading entry is the only non-zero entry of its column. -/
def XArray.is_rref {Ty : Type} [Field Ty] [DecidableEq Ty] (mat : XArray Ty) : Prop :=
  (∀ i < mat.shape0, ∀ k < mat.shape0,
      mat.leading i = none → mat.leading k ≠ none → k < i) ∧
  (∀ i, i + 1 < mat.shape0 → ∀ a b,
      mat.leading i = some a → mat.leading (i + 1) = some b → a < b) ∧
  (∀ i < mat.shape0, ∀ a, mat.leading i = some a → mat.data i a = 1) ∧
  (∀ i < mat.shape0, ∀ a, mat.leading i = some a →
      ∀ k < mat.shape0, k ≠ i → mat.data k a = 0)

/-- A square matrix is singular in the sense of the specification when the
reduction of `[A | I]` finds no non-zero pivot in at least one of the first `n`
columns. -/
def XArray.singular {Ty : Type} [Field Ty] [DecidableEq Ty] (mat : XArray Ty) : Prop :=
  ∃ col < mat.shape0,
    (find_nz (reduce_cols mat.shape0 (2 * mat.shape0) (augment mat) col).2 mat.shape0 col).2
      = false

/-- The store of a call with two distinct arrays: `false` names `mat0` and
`true` names `mat1`. -/
def two_arrays {Ty : Type} (mat0 mat1 : XArray Ty) : Store Bool Ty :=
  fun r => if r then mat1 else mat0


/-- The row exchange at the head of the pivot branch of `reduce_echelon`:
`if (nz_idx != col) swap_row(mat, mat, nz_idx, col)`. -/
def move_pivot_row {Ty : Type} (mat : XArray Ty) (nz_idx col : Nat) : Outcome × XArray Ty :=
  if nz_idx ≠ col then swap_row_same mat nz_idx col else (Outcome.done, mat)

/-- The value `Ty pivot = mat(col, col)` that `reduce_echelon` reads after the
optional row exchange, for the array `mat` at the start of the round of column
`col`. -/
def pivot_value {Ty : Type} [Zero Ty] [DecidableEq Ty] (shape0 : Nat) (mat : XArray Ty)
    (col : Nat) : Ty :=
  (move_pivot_row mat (find_nz mat shape0 col).1 col).2.data col col

/-! ## The reduction with every element access checked against the shape -/

/-- The element access `mat(i, j)` for reading, with the indices checked against
the shape: `none` when `(i, j)` lies outside. -/
def XArray.read {Ty : Type} (mat : XArray Ty) (i j : Nat) : Option Ty :=
  if i < mat.shape0 ∧ j < mat.shape1 then some (mat.data i j) else none

/-- The element access `mat(i, j) = v`, with the indices checked against the
shape: `none` when `(i, j)` lies outside. -/
def XArray.write {Ty : Type} (mat : XArray Ty) (i j : Nat) (v : Ty) : Option (XArray Ty) :=
  if i < mat.shape0 ∧ j < mat.shape1 then some (mat.set i j v) else none

/-- The pivot search with the access `mat(row, col)` checked. -/
def find_nz_checked {Ty : Type} [Zero Ty] [DecidableEq Ty] (mat : XArray Ty)
    (shape0 col : Nat) : Option (Nat × Bool) :=
  (List.range' col (shape0 - col)).foldlM
    (fun (st : Nat × Bool) row =>
      if st.2 then some st
      else do
        let x ← mat.read row col
        if x ≠ 0 then some (row, true) else some st)
    (2 ^ 64 - 1, false)

/-- The division loop with the access `mat(nz_idx, i)` checked. -/
def divide_row_checked {Ty : Type} [Field Ty] (mat : XArray Ty) (shape1 nz_idx : Nat)
    (pivot : Ty) : Option (XArray Ty) :=
  (List.range shape1).foldlM
    (fun m i => do
      let x ← m.read nz_idx i
      m.write nz_idx i (x / pivot))
    mat

/-- The Gauss move with the accesses `mat(i, j)` and `mat(col, j)` checked. -/
def gauss_move_checked {Ty : Type} [Field Ty] (mat : XArray Ty) (shape1 col i : Nat)
    (lambda : Ty) : Option (XArray Ty) :=
  (List.range shape1).foldlM
    (fun m j => do
      let x ← m.read i j
      let y ← m.read col j
      m.write i j (x - y * lambda))
    mat

/-- The elimination loop with the access `mat(i, col)` checked (it is only made
when `i != col`) and the Gauss moves checked. -/
def eliminate_checked {Ty : Type} [Field Ty] [DecidableEq Ty] (mat : XArray Ty)
    (shape0 shape1 col : Nat) : Option (XArray Ty) :=
  (List.range shape0).foldlM
    (fun m i =>
      if i ≠ col then do
        let x ← m.read i col
        if x ≠ 0 then do
          let lambda ← m.read i col
          gauss_move_checked m shape1 col i lambda
        else some m
      else some m)
    mat

/-- The body of the column loop with every element access checked: `none` as
soon as one access lies outside the shape. -/
def reduce_col_checked {Ty : Type} [Field Ty] [DecidableEq Ty] (shape0 shape1 : Nat)
    (mat : XArray Ty) (col : Nat) : Option (Outcome × XArray Ty) := do
  let nz ← find_nz_checked mat shape0 col
  let nz_idx := nz.1
  let nz_found := nz.2
  if nz_found then
    let swapped := if nz_idx ≠ col then swap_row_same mat nz_idx col else (Outcome.done, mat)
    match swapped with
    | (Outcome.thrown e, mat) => some (Outcome.thrown e, mat)
    | (Outcome.done, mat) => do
      let pivot ← mat.read col col
      let mat ← divide_row_checked mat shape1 nz_idx pivot
      let mat ← eliminate_checked mat shape0 shape1 col
      some (Outcome.done, mat)
  else some (Outcome.done, mat)

/-- The function `reduce_echelon` with every element access checked against
the shape. -/
def reduce_echelon_checked {Ty : Type} [Field Ty] [DecidableEq Ty] (mat : XArray Ty) :
    Option (Outcome × XArray Ty) :=
  let shape0 := mat.shape0
  let shape1 := mat.shape1
  (List.range shape1).foldlM
    (fun (st : Outcome × XArray Ty) col =>
      match st with
      | (Outcome.thrown e, m) => some (Outcome.thrown e, m)
      | (Outcome.done, m) => reduce_col_checked shape0 shape1 m col)
    (Outcome.done, mat)

/-- The elements of an array inside the shape `(R, C)`, as a matrix. -/
def XArray.toMatrix {Ty : Type} (R C : Nat) (mat : XArray Ty) : Matrix (Fin R) (Fin C) Ty :=
  fun i j => mat.data i.val j.val

/-- The relation "`b` is `E × a` for an invertible `R x R` matrix `E`" between
two arrays read with the shape `(R, C)`. -/
def row_equivalent {Ty : Type} [Field Ty] (R C : Nat) (a b : XArray Ty) : Prop :=
  ∃ E : Matrix (Fin R) (Fin R) Ty, IsUnit E ∧ b.toMatrix R C = E * a.toMatrix R C

/-! ## The row exchange with every access checked against the arrays -/

/-- The row copy `xt::xarray<Ty> x_view = xt::view(mat, row)` with the row index
checked against the shape: `none` when `row` is not below the row count, where
the copy reads outside the buffer of `mat`. -/
def XArray.view_checked {Ty : Type} (mat : XArray Ty) (row : Nat) : Option (XRow Ty) :=
  if row < mat.shape0 then some (mat.view row) else none

/-- The element access `x_view(i)` of a row copy, with the index checked against
its size. -/
def XRow.read {Ty : Type} (x_view : XRow Ty) (i : Nat) : Option Ty :=
  if i < x_view.size then some (x_view.data i) else none

/-- The assignment `mat(i, j) = v` through the reference `mat`, with the indices
checked against the shape of the array it names. -/
def Store.assign_checked {Ref Ty : Type} [DecidableEq Ref] (s : Store Ref Ty) (mat : Ref)
    (i j : Nat) (v : Ty) : Option (Store Ref Ty) :=
  if i < (s mat).shape0 ∧ j < (s mat).shape1 then some (s.assign mat i j v) else none

/-- The body of the exchange loop of `swap_row` with its four accesses checked. -/
def swap_row_step_checked {Ref Ty : Type} [DecidableEq Ref] (mat0 mat1 : Ref)
    (row0 row1 : Nat) (x_view0 x_view1 : XRow Ty) (s : Store Ref Ty) (i : Nat) :
    Option (Store Ref Ty) := do
  let a ← x_view1.read i
  let s ← s.assign_checked mat0 row0 i a
  let b ← x_view0.read i
  s.assign_checked mat1 row1 i b

/-- The function `xt_utils::swap_row(mat0, mat1, row0, row1)` with every access
checked, in the order of the source: the two row copies come first, then the two
bounds checks, the dimension check and the exchange loop.  The result is `none`
as soon as one access lies outside its array. -/
def swap_row_checked {Ref Ty : Type} [DecidableEq Ref] (s : Store Ref Ty) (mat0 mat1 : Ref)
    (row0 row1 : Nat) : Option (Outcome × Store Ref Ty) := do
  let x_view0 ← (s mat0).view_checked row0
  let x_view1 ← (s mat1).view_checked row1
  let shape0 := ((s mat0).shape0, (s mat0).shape1)
  let shape1 := ((s mat1).shape0, (s mat1).shape1)
  -- Make sure the rows are not out of bound
  if check_access shape0 row0 = false then some (Outcome.thrown Error.out_of_range, s)
  else if check_access shape1 row1 = false then some (Outcome.thrown Error.out_of_range, s)
  -- Make sure the row dimensions are compatible
  else if shape0.1 ≠ shape1.1 then some (Outcome.thrown Error.runtime_error, s)
  else do
    let s ← (List.range x_view0.size).foldlM
      (swap_row_step_checked mat0 mat1 row0 row1 x_view0 x_view1) s
    some (Outcome.done, s)

/-! ## The row exchange -/

@[simp] theorem XArray.set_shape0 {Ty : Type} (mat : XArray Ty) (i j : Nat) (v : Ty) :
    (mat.set i j v).shape0 = mat.shape0 := rfl

@[simp] theorem XArray.set_shape1 {Ty : Type} (mat : XArray Ty) (i j : Nat) (v : Ty) :
    (mat.set i j v).shape1 = mat.shape1 := rfl

theorem XArray.set_data {Ty : Type} (mat : XArray Ty) (i j : Nat) (v : Ty) (i' j' : Nat) :
    (mat.set i j v).data i' j' = if i' = i ∧ j' = j then v else mat.data i' j' := rfl

theorem Store.assign_shape0 {Ref Ty : Type} [DecidableEq Ref] (s : Store Ref Ty) (mat : Ref)
    (i j : Nat) (v : Ty) (r : Ref) : (s.assign mat i j v r).shape0 = (s r).shape0 := by
  unfold Store.assign
  split
  · subst_vars; rfl
  · rfl

theorem Store.assign_shape1 {Ref Ty : Type} [DecidableEq Ref] (s : Store Ref Ty) (mat : Ref)
    (i j : Nat) (v : Ty) (r : Ref) : (s.assign mat i j v r).shape1 = (s r).shape1 := by
  unfold Store.assign
  split
  · subst_vars; rfl
  · rfl

theorem Store.assign_data {Ref Ty : Type} [DecidableEq Ref] (s : Store Ref Ty) (mat : Ref)
    (i j : Nat) (v : Ty) (r : Ref) (i' j' : Nat) :
    (s.assign mat i j v r).data i' j'
      = if r = mat ∧ i' = i ∧ j' = j then v else (s r).data i' j' := by
  unfold Store.assign
  by_cases h : r = mat
  · subst h
    simp [XArray.set_data]
  · simp [h]

/-- The exchange loop of `swap_row` keeps every shape. -/
theorem swap_loop_shape {Ref Ty : Type} [DecidableEq Ref] (mat0 mat1 : Ref) (row0 row1 : Nat)
    (v0 v1 : XRow Ty) (s : Store Ref Ty) (n : Nat) (r : Ref) :
    (((List.range n).foldl (swap_row_step mat0 mat1 row0 row1 v0 v1) s) r).shape0
        = (s r).shape0 ∧
    (((List.range n).foldl (swap_row_step mat0 mat1 row0 row1 v0 v1) s) r).shape1
        = (s r).shape1 := by
  induction n with
  | zero => simp
  | succ n ih =>
    rw [List.range_succ, List.foldl_append]
    simp only [List.foldl_cons, List.foldl_nil, swap_row_step, Store.assign_shape0,
      Store.assign_shape1]
    exact ih

/-- The contents after the exchange loop of `swap_row` has run for the indices
`0 .. n-1`: the write through `mat1` is the later one of each round. -/
theorem swap_loop_data {Ref Ty : Type} [DecidableEq Ref] (mat0 mat1 : Ref) (row0 row1 : Nat)
    (v0 v1 : XRow Ty) (s : Store Ref Ty) (n : Nat) (r : Ref) (i j : Nat) :
    (((List.range n).foldl (swap_row_step mat0 mat1 row0 row1 v0 v1) s) r).data i j
      = if r = mat1 ∧ i = row1 ∧ j < n then v0.data j
        else if r = mat0 ∧ i = row0 ∧ j < n then v1.data j
        else (s r).data i j := by
  induction n with
  | zero => simp
  | succ n ih =>
    rw [List.range_succ, List.foldl_append]
    simp only [List.foldl_cons, List.foldl_nil, swap_row_step, Store.assign_data, ih]
    by_cases h1 : r = mat1 ∧ i = row1
    · by_cases hj : j = n
      · subst hj; simp [h1]
      · have : j < n + 1 ↔ j < n := by omega
        simp [h1, hj, this]
    · by_cases h0 : r = mat0 ∧ i = row0
      · by_cases hj : j = n
        · subst hj; simp [h0]
        · have : j < n + 1 ↔ j < n := by omega
          simp [h0, hj, this]
      · have e1 : ∀ p : Prop, (r = mat1 ∧ i = row1 ∧ p) ↔ False := by
          intro p; constructor
          · rintro ⟨a, b, _⟩; exact h1 ⟨a, b⟩
          · exact False.elim
        have e0 : ∀ p : Prop, (r = mat0 ∧ i = row0 ∧ p) ↔ False := by
          intro p; constructor
          · rintro ⟨a, b, _⟩; exact h0 ⟨a, b⟩
          · exact False.elim
        simp [e1, e0]

/-- When `swap_row` throws, it has written nothing. -/
theorem swap_row_thrown_unchanged {Ref Ty : Type} [DecidableEq Ref] (s : Store Ref Ty)
    (mat0 mat1 : Ref) (row0 row1 : Nat) (e : Error)
    (h : (swap_row s mat0 mat1 row0 row1).1 = Outcome.thrown e) :
    (swap_row s mat0 mat1 row0 row1).2 = s := by
  unfold swap_row at h ⊢
  simp only at h ⊢
  split_ifs at h ⊢ <;> rfl

/-- What `swap_row` needs in order to return: both indices in range and equal
row counts. -/
theorem swap_row_done_iff {Ref Ty : Type} [DecidableEq Ref] (s : Store Ref Ty)
    (mat0 mat1 : Ref) (row0 row1 : Nat) :
    (swap_row s mat0 mat1 row0 row1).1 = Outcome.done ↔
      row0 < (s mat0).shape0 ∧ row1 < (s mat1).shape0 ∧ (s mat0).shape0 = (s mat1).shape0 := by
  unfold swap_row
  simp only [check_access, decide_eq_false_iff_not, not_lt, ne_eq]
  by_cases h0 : (s mat0).shape0 ≤ row0
  · simp [h0]
  · by_cases h1 : (s mat1).shape0 ≤ row1
    · simp [h0, h1]
    · by_cases h2 : (s mat0).shape0 = (s mat1).shape0
      · rw [if_neg h0, if_neg h1, if_neg (not_not.mpr h2)]
        exact ⟨fun _ => ⟨by omega, by omega, h2⟩, fun _ => rfl⟩
      · simp [h0, h1, h2]

/-- The contents `swap_row` leaves when it returns. -/
theorem swap_row_done_data {Ref Ty : Type} [DecidableEq Ref] (s : Store Ref Ty)
    (mat0 mat1 : Ref) (row0 row1 : Nat)
    (h : (swap_row s mat0 mat1 row0 row1).1 = Outcome.done) (r : Ref) (i j : Nat) :
    ((swap_row s mat0 mat1 row0 row1).2 r).data i j
      = if r = mat1 ∧ i = row1 ∧ j < (s mat0).shape1 then (s mat0).data row0 j
        else if r = mat0 ∧ i = row0 ∧ j < (s mat0).shape1 then (s mat1).data row1 j
        else (s r).data i j := by
  obtain ⟨h0, h1, h2⟩ := (swap_row_done_iff s mat0 mat1 row0 row1).1 h
  have c0 : check_access ((s mat0).shape0, (s mat0).shape1) row0 = true := by
    simp [check_access, h0]
  have c1 : check_access ((s mat1).shape0, (s mat1).shape1) row1 = true := by
    simp [check_access, h1]
  unfold swap_row
  simp only [c0, c1, Bool.true_eq_false, if_false]
  rw [if_neg (not_not.mpr h2)]
  simp only [swap_loop_data, XArray.view]

/-- Shapes are never changed by `swap_row`. -/
theorem swap_row_shape {Ref Ty : Type} [DecidableEq Ref] (s : Store Ref Ty)
    (mat0 mat1 : Ref) (row0 row1 : Nat) (r : Ref) :
    ((swap_row s mat0 mat1 row0 row1).2 r).shape0 = (s r).shape0 ∧
    ((swap_row s mat0 mat1 row0 row1).2 r).shape1 = (s r).shape1 := by
  unfold swap_row
  simp only
  split_ifs <;> first | exact ⟨rfl, rfl⟩ | exact swap_loop_shape _ _ _ _ _ _ _ _ _

/-! ## The pivot search -/

/-- The pivot search over the rows `col .. col+len-1`: when it reports a row,
that row is in the scanned range, its entry in column `col` is non-zero and
every scanned row before it has a zero there; when it reports none, every
scanned row has a zero in column `col`. -/
theorem find_nz_loop_spec {Ty : Type} [Zero Ty] [DecidableEq Ty] (mat : XArray Ty)
    (col len : Nat) :
    ((((List.range' col len).foldl
        (fun (st : Nat × Bool) row =>
          if st.2 then st else if mat.data row col ≠ 0 then (row, true) else st)
        (2 ^ 64 - 1, false)).2 = true) →
      col ≤ ((List.range' col len).foldl
        (fun (st : Nat × Bool) row =>
          if st.2 then st else if mat.data row col ≠ 0 then (row, true) else st)
        (2 ^ 64 - 1, false)).1 ∧
      ((List.range' col len).foldl
        (fun (st : Nat × Bool) row =>
          if st.2 then st else if mat.data row col ≠ 0 then (row, true) else st)
        (2 ^ 64 - 1, false)).1 < col + len ∧
      mat.data ((List.range' col len).foldl
        (fun (st : Nat × Bool) row =>
          if st.2 then st else if mat.data row col ≠ 0 then (row, true) else st)
        (2 ^ 64 - 1, false)).1 col ≠ 0 ∧
      ∀ row, col ≤ row → row < ((List.range' col len).foldl
        (fun (st : Nat × Bool) row =>
          if st.2 then st else if mat.data row col ≠ 0 then (row, true) else st)
        (2 ^ 64 - 1, false)).1 → mat.data row col = 0) ∧
    ((((List.range' col len).foldl
        (fun (st : Nat × Bool) row =>
          if st.2 then st else if mat.data row col ≠ 0 then (row, true) else st)
        (2 ^ 64 - 1, false)).2 = false) →
      ∀ row, col ≤ row → row < col + len → mat.data row col = 0) := by
  induction len with
  | zero =>
    refine ⟨by simp, ?_⟩
    intro _ row h1 h2
    omega
  | succ n ih =>
    rw [List.range'_concat, List.foldl_append]
    simp only [List.foldl_cons, List.foldl_nil, Nat.one_mul]
    generalize (List.range' col n).foldl
        (fun (st : Nat × Bool) row =>
          if st.2 then st else if mat.data row col ≠ 0 then (row, true) else st)
        (2 ^ 64 - 1, false) = st at ih ⊢
    obtain ⟨idx, found⟩ := st
    cases found with
    | true =>
      simp only [if_true]
      obtain ⟨h1, h2, h3, h4⟩ := ih.1 rfl
      refine ⟨fun _ => ⟨h1, by simp only at h2 ⊢; omega, h3, h4⟩, fun h => by simp at h⟩
    | false =>
      have hz := ih.2 rfl
      simp only [Bool.false_eq_true, if_false]
      by_cases hnz : mat.data (col + n) col ≠ 0
      · rw [if_pos hnz]
        refine ⟨fun _ => ⟨by simp, by simp, hnz, ?_⟩, fun h => by simp at h⟩
        intro row hr1 hr2
        exact hz row hr1 hr2
      · rw [if_neg hnz]
        refine ⟨fun h => by simp at h, ?_⟩
        intro _ row hr1 hr2
        by_cases hr : row = col + n
        · subst hr; exact not_not.mp hnz
        · exact hz row hr1 (by omega)

/-- A pivot row reported by `find_nz` lies in `col .. shape0-1`, holds a non-zero
entry in column `col`, and is the first such row. -/
theorem find_nz_found {Ty : Type} [Zero Ty] [DecidableEq Ty] (mat : XArray Ty)
    (shape0 col : Nat) (h : (find_nz mat shape0 col).2 = true) :
    col ≤ (find_nz mat shape0 col).1 ∧ (find_nz mat shape0 col).1 < shape0 ∧
    mat.data (find_nz mat shape0 col).1 col ≠ 0 ∧
    ∀ row, col ≤ row → row < (find_nz mat shape0 col).1 → mat.data row col = 0 := by
  obtain ⟨h1, h2, h3, h4⟩ := (find_nz_loop_spec mat col (shape0 - col)).1 h
  exact ⟨h1, by unfold find_nz; omega, h3, h4⟩

/-- When `find_nz` reports no pivot row, column `col` is zero in every row
`col .. shape0-1`. -/
theorem find_nz_not_found {Ty : Type} [Zero Ty] [DecidableEq Ty] (mat : XArray Ty)
    (shape0 col : Nat) (h : (find_nz mat shape0 col).2 = false) :
    ∀ row, col ≤ row → row < shape0 → mat.data row col = 0 := by
  intro row h1 h2
  exact (find_nz_loop_spec mat col (shape0 - col)).2 h row h1 (by omega)

/-! ## Shapes and outcomes of the reduction -/

/-- A loop whose body keeps the shape keeps the shape. -/
theorem foldl_keeps_shape {Ty α : Type} (f : XArray Ty → α → XArray Ty)
    (hf : ∀ m a, (f m a).shape0 = m.shape0 ∧ (f m a).shape1 = m.shape1)
    (l : List α) (mat : XArray Ty) :
    (l.foldl f mat).shape0 = mat.shape0 ∧ (l.foldl f mat).shape1 = mat.shape1 := by
  induction l generalizing mat with
  | nil => exact ⟨rfl, rfl⟩
  | cons a l ih =>
    simp only [List.foldl_cons]
    exact ⟨(ih (f mat a)).1.trans (hf mat a).1, (ih (f mat a)).2.trans (hf mat a).2⟩

theorem divide_row_shape {Ty : Type} [Field Ty] (mat : XArray Ty) (shape1 nz_idx : Nat)
    (pivot : Ty) :
    (divide_row mat shape1 nz_idx pivot).shape0 = mat.shape0 ∧
    (divide_row mat shape1 nz_idx pivot).shape1 = mat.shape1 := by
  unfold divide_row
  apply foldl_keeps_shape
  intro m a
  exact ⟨rfl, rfl⟩

theorem gauss_move_shape {Ty : Type} [Field Ty] (mat : XArray Ty) (shape1 col i : Nat)
    (lambda : Ty) :
    (gauss_move mat shape1 col i lambda).shape0 = mat.shape0 ∧
    (gauss_move mat shape1 col i lambda).shape1 = mat.shape1 := by
  unfold gauss_move
  apply foldl_keeps_shape
  intro m a
  exact ⟨rfl, rfl⟩

theorem eliminate_shape {Ty : Type} [Field Ty] [DecidableEq Ty] (mat : XArray Ty)
    (shape0 shape1 col : Nat) :
    (eliminate mat shape0 shape1 col).shape0 = mat.shape0 ∧
    (eliminate mat shape0 shape1 col).shape1 = mat.shape1 := by
  unfold eliminate
  apply foldl_keeps_shape
  intro m i
  split
  · exact gauss_move_shape _ _ _ _ _
  · exact ⟨rfl, rfl⟩

theorem swap_row_same_shape {Ty : Type} (mat : XArray Ty) (row0 row1 : Nat) :
    (swap_row_same mat row0 row1).2.shape0 = mat.shape0 ∧
    (swap_row_same mat row0 row1).2.shape1 = mat.shape1 :=
  swap_row_shape (fun _ : Unit => mat) () () row0 row1 ()

/-- The call `swap_row(mat, mat, row0, row1)` returns exactly when both indices
are in range. -/
theorem swap_row_same_done_iff {Ty : Type} (mat : XArray Ty) (row0 row1 : Nat) :
    (swap_row_same mat row0 row1).1 = Outcome.done ↔
      row0 < mat.shape0 ∧ row1 < mat.shape0 := by
  unfold swap_row_same
  simp only [swap_row_done_iff, and_true]

/-- The rows of `mat` after `swap_row(mat, mat, row0, row1)` has returned. -/
theorem swap_row_same_data {Ty : Type} (mat : XArray Ty) (row0 row1 : Nat)
    (h : (swap_row_same mat row0 row1).1 = Outcome.done) (i j : Nat) :
    (swap_row_same mat row0 row1).2.data i j
      = if i = row1 ∧ j < mat.shape1 then mat.data row0 j
        else if i = row0 ∧ j < mat.shape1 then mat.data row1 j
        else mat.data i j := by
  unfold swap_row_same at h ⊢
  simp only at h ⊢
  rw [swap_row_done_data _ _ _ _ _ h]
  simp

/-- The body of the column loop always returns, and keeps the shape. -/
theorem reduce_col_done {Ty : Type} [Field Ty] [DecidableEq Ty] (shape0 shape1 : Nat)
    (mat : XArray Ty) (col : Nat) (hs : mat.shape0 = shape0) :
    (reduce_col shape0 shape1 mat col).1 = Outcome.done ∧
    (reduce_col shape0 shape1 mat col).2.shape0 = mat.shape0 ∧
    (reduce_col shape0 shape1 mat col).2.shape1 = mat.shape1 := by
  unfold reduce_col
  simp only
  cases hf : (find_nz mat shape0 col).2 with
  | false => simp
  | true =>
    simp only [if_true]
    obtain ⟨h1, h2, _, _⟩ := find_nz_found mat shape0 col hf
    by_cases hne : (find_nz mat shape0 col).1 ≠ col
    · rw [if_pos hne]
      have hd : (swap_row_same mat (find_nz mat shape0 col).1 col).1 = Outcome.done :=
        (swap_row_same_done_iff _ _ _).2 ⟨by omega, by omega⟩
      have hsw := swap_row_same_shape mat (find_nz mat shape0 col).1 col
      generalize swap_row_same mat (find_nz mat shape0 col).1 col = sw at hd hsw
      obtain ⟨o, m⟩ := sw
      simp only at hd hsw
      subst hd
      simp only
      refine ⟨trivial, ?_, ?_⟩
      · rw [(eliminate_shape _ _ _ _).1, (divide_row_shape _ _ _ _).1, hsw.1]
      · rw [(eliminate_shape _ _ _ _).2, (divide_row_shape _ _ _ _).2, hsw.2]
    · rw [if_neg hne]
      simp only
      refine ⟨trivial, ?_, ?_⟩
      · rw [(eliminate_shape _ _ _ _).1, (divide_row_shape _ _ _ _).1]
      · rw [(eliminate_shape _ _ _ _).2, (divide_row_shape _ _ _ _).2]

/-- The column loop always returns, and keeps the shape. -/
theorem reduce_cols_done {Ty : Type} [Field Ty] [DecidableEq Ty] (shape0 shape1 : Nat)
    (mat : XArray Ty) (k : Nat) (hs : mat.shape0 = shape0) :
    (reduce_cols shape0 shape1 mat k).1 = Outcome.done ∧
    (reduce_cols shape0 shape1 mat k).2.shape0 = mat.shape0 ∧
    (reduce_cols shape0 shape1 mat k).2.shape1 = mat.shape1 := by
  induction k with
  | zero => exact ⟨rfl, rfl, rfl⟩
  | succ k ih =>
    unfold reduce_cols at ih ⊢
    rw [List.range_succ, List.foldl_append]
    simp only [List.foldl_cons, List.foldl_nil]
    generalize (List.range k).foldl _ (Outcome.done, mat) = st at ih ⊢
    obtain ⟨o, m⟩ := st
    obtain ⟨h1, h2, h3⟩ := ih
    simp only at h1 h2 h3
    subst h1
    simp only
    obtain ⟨g1, g2, g3⟩ := reduce_col_done shape0 shape1 m k (h2.trans hs)
    exact ⟨g1, g2.trans h2, g3.trans h3⟩

/-- The function `reduce_echelon` returns on every array and keeps its shape: no call it
makes to `swap_row` throws. -/
theorem reduce_echelon_done {Ty : Type} [Field Ty] [DecidableEq Ty] (mat : XArray Ty) :
    (reduce_echelon mat).1 = Outcome.done ∧
    (reduce_echelon mat).2.shape0 = mat.shape0 ∧
    (reduce_echelon mat).2.shape1 = mat.shape1 :=
  reduce_cols_done mat.shape0 mat.shape1 mat mat.shape1 rfl

/-- The function `invert_gauss_jordan` returns on every array, and what it leaves
is the copy of the right half of the reduced augmented array. -/
theorem invert_gauss_jordan_done {Ty : Type} [Field Ty] [DecidableEq Ty] (mat : XArray Ty) :
    (invert_gauss_jordan mat).1 = Outcome.done ∧
    (invert_gauss_jordan mat).2
      = copy_back mat (reduce_echelon (augment mat)).2 mat.shape0 (2 * mat.shape0) := by
  unfold invert_gauss_jordan
  have h := (reduce_echelon_done (augment mat)).1
  generalize reduce_echelon (augment mat) = r at h ⊢
  obtain ⟨o, m⟩ := r
  simp only at h
  subst h
  exact ⟨rfl, rfl⟩

/-! ## The copy of the right half -/

/-- One row of the copy loop of `invert_gauss_jordan`, run over the columns
`n .. n+len-1` of `mat_`. -/
theorem copy_back_row_data {Ty : Type} (m mat_ : XArray Ty) (n len i : Nat) (i' j' : Nat) :
    ((List.range' n len).foldl (fun m j => m.set i (j - n) (mat_.data i j)) m).data i' j'
      = if i' = i ∧ j' < len then mat_.data i (n + j') else m.data i' j' := by
  induction len with
  | zero => simp
  | succ len ih =>
    rw [List.range'_concat, List.foldl_append]
    simp only [List.foldl_cons, List.foldl_nil, Nat.one_mul, XArray.set_data, ih,
      Nat.add_sub_cancel_left]
    by_cases hi : i' = i
    · by_cases hj : j' = len
      · subst hj; simp [hi]
      · have : j' < len + 1 ↔ j' < len := by omega
        simp [hi, hj, this]
    · simp [hi]

/-- The contents `copy_back` leaves: the block of rows and columns below `n`
holds the columns `n .. 2n-1` of `mat_`, the other elements are those of `mat`. -/
theorem copy_back_data {Ty : Type} (mat mat_ : XArray Ty) (n : Nat) (i j : Nat) :
    (copy_back mat mat_ n (2 * n)).data i j
      = if i < n ∧ j < n then mat_.data i (n + j) else mat.data i j := by
  unfold copy_back
  have hlen : 2 * n - n = n := by omega
  rw [hlen]
  have key : ∀ k, ((List.range k).foldl
      (fun m i => (List.range' n n).foldl (fun m j => m.set i (j - n) (mat_.data i j)) m)
      mat).data i j = if i < k ∧ j < n then mat_.data i (n + j) else mat.data i j := by
    intro k
    induction k with
    | zero => simp
    | succ k ih =>
      rw [List.range_succ, List.foldl_append]
      simp only [List.foldl_cons, List.foldl_nil, copy_back_row_data, ih]
      by_cases hi : i = k
      · subst hi; simp
      · have : i < k + 1 ↔ i < k := by omega
        simp [hi, this]
  exact key n

theorem copy_back_shape {Ty : Type} (mat mat_ : XArray Ty) (a b : Nat) :
    (copy_back mat mat_ a b).shape0 = mat.shape0 ∧
    (copy_back mat mat_ a b).shape1 = mat.shape1 := by
  unfold copy_back
  apply foldl_keeps_shape
  intro m i
  apply foldl_keeps_shape
  intro m j
  exact ⟨rfl, rfl⟩

/-! ## Properties of `swap_row` -/

/-- C8: when `swap_row(mat0, mat1, row0, row1)` returns and the column counts
are equal, both indices were in range, row `row0` of `mat0` holds the former row
`row1` of `mat1`, row `row1` of `mat1` holds the former row `row0` of `mat0`,
every other row of both arrays and both shapes are unchanged; when both
references name the same array, its rows `row0` and `row1` are exchanged and
every other row is unchanged. -/
theorem swap_row_exchanges_rows {Ref Ty : Type} [DecidableEq Ref] (s : Store Ref Ty)
    (mat0 mat1 : Ref) (row0 row1 : Nat)
    (hdone : (swap_row s mat0 mat1 row0 row1).1 = Outcome.done)
    (hcols : (s mat0).shape1 = (s mat1).shape1) :
    (row0 < (s mat0).shape0 ∧ row1 < (s mat1).shape0) ∧
    (∀ j < (s mat0).shape1,
      ((swap_row s mat0 mat1 row0 row1).2 mat0).data row0 j = (s mat1).data row1 j) ∧
    (∀ j < (s mat1).shape1,
      ((swap_row s mat0 mat1 row0 row1).2 mat1).data row1 j = (s mat0).data row0 j) ∧
    (mat0 ≠ mat1 → ∀ i j, i ≠ row0 →
      ((swap_row s mat0 mat1 row0 row1).2 mat0).data i j = (s mat0).data i j) ∧
    (mat0 ≠ mat1 → ∀ i j, i ≠ row1 →
      ((swap_row s mat0 mat1 row0 row1).2 mat1).data i j = (s mat1).data i j) ∧
    (mat0 = mat1 → ∀ i j, i ≠ row0 → i ≠ row1 →
      ((swap_row s mat0 mat1 row0 row1).2 mat0).data i j = (s mat0).data i j) ∧
    (∀ r, ((swap_row s mat0 mat1 row0 row1).2 r).shape0 = (s r).shape0 ∧
      ((swap_row s mat0 mat1 row0 row1).2 r).shape1 = (s r).shape1) := by
  obtain ⟨h0, h1, _⟩ := (swap_row_done_iff s mat0 mat1 row0 row1).1 hdone
  refine ⟨⟨h0, h1⟩, ?_, ?_, ?_, ?_, ?_, fun r => swap_row_shape s mat0 mat1 row0 row1 r⟩
  · intro j hj
    rw [swap_row_done_data s mat0 mat1 row0 row1 hdone]
    by_cases h : mat0 = mat1 ∧ row0 = row1
    · obtain ⟨e1, e2⟩ := h
      subst e1 e2
      simp [hj]
    · have : ¬ (mat0 = mat1 ∧ row0 = row1 ∧ j < (s mat0).shape1) :=
        fun ⟨a, b, _⟩ => h ⟨a, b⟩
      rw [if_neg this]
      simp [hj]
  · intro j hj
    rw [swap_row_done_data s mat0 mat1 row0 row1 hdone]
    simp [hcols, hj]
  · intro hne i j hi
    rw [swap_row_done_data s mat0 mat1 row0 row1 hdone]
    simp [hne, hi]
  · intro hne i j hi
    rw [swap_row_done_data s mat0 mat1 row0 row1 hdone]
    simp [hi, Ne.symm hne]
  · intro _ i j hi0 hi1
    rw [swap_row_done_data s mat0 mat1 row0 row1 hdone]
    simp [hi0, hi1]

/-- C8, on an instance: exchanging row 0 of `[[1,2],[3,4]]` with row 1 of
`[[5,6],[7,8]]`. -/
theorem swap_row_exchanges_rows_witness :
    ((swap_row (two_arrays (XArray.ofLists [[1, 2], [3, 4]] : XArray ℚ)
        (XArray.ofLists [[5, 6], [7, 8]])) false true 0 1).2 false).data 0 0
      = (two_arrays (XArray.ofLists [[1, 2], [3, 4]] : XArray ℚ)
        (XArray.ofLists [[5, 6], [7, 8]]) true).data 1 0 :=
  (swap_row_exchanges_rows
    (two_arrays (XArray.ofLists [[1, 2], [3, 4]] : XArray ℚ) (XArray.ofLists [[5, 6], [7, 8]]))
    false true 0 1 (by decide!) (by decide!)).2.1 0 (by decide!)

/-- The bounds checks precede the exchange loop.  In `swap_row`, where a row
copy is a total read, an index at or beyond the row count gives the
`std::out_of_range` throw with every array as it was.  What the row copy itself
does at such an index is shown by `swap_row_checked`. -/
theorem swap_row_out_of_range {Ref Ty : Type} [DecidableEq Ref] (s : Store Ref Ty)
    (mat0 mat1 : Ref) (row0 row1 : Nat)
    (h : (s mat0).shape0 ≤ row0 ∨ (s mat1).shape0 ≤ row1) :
    swap_row s mat0 mat1 row0 row1 = (Outcome.thrown Error.out_of_range, s) := by
  unfold swap_row
  simp only [check_access, decide_eq_false_iff_not, not_lt]
  by_cases h0 : (s mat0).shape0 ≤ row0
  · rw [if_pos h0]
  · rw [if_neg h0, if_pos (h.resolve_left h0)]

/-! ## Inputs that `invert_gauss_jordan` does not reject -/

/-- C6, as the claim states it, fails: `[[1,2],[2,4]]` is singular (no pivot is
found in column 1 of `[A | I]`), and `invert_gauss_jordan` returns without
throwing, leaving `[[1,0],[-2,1]]`. -/
theorem invert_gauss_jordan_singular_returns :
    (XArray.ofLists [[1, 2], [2, 4]] : XArray ℚ).singular ∧
    (invert_gauss_jordan (XArray.ofLists [[1, 2], [2, 4]] : XArray ℚ)).1 = Outcome.done ∧
    (∀ e, (invert_gauss_jordan (XArray.ofLists [[1, 2], [2, 4]] : XArray ℚ)).1
      ≠ Outcome.thrown e) ∧
    (invert_gauss_jordan (XArray.ofLists [[1, 2], [2, 4]] : XArray ℚ)).2.toLists
      = [[1, 0], [-2, 1]] := by
  refine ⟨⟨1, by decide!, by decide!⟩, by decide!, ?_, by decide!⟩
  intro e
  have h : (invert_gauss_jordan (XArray.ofLists [[1, 2], [2, 4]] : XArray ℚ)).1
      = Outcome.done := by decide!
  rw [h]
  exact fun h => Outcome.noConfusion h

/-- C6, amended: on every square singular matrix `invert_gauss_jordan` throws
nothing; it returns, the shape of the matrix is unchanged and the matrix holds
the right half of what `reduce_echelon` left of `[A | I]`. -/
theorem invert_gauss_jordan_singular_no_error {Ty : Type} [Field Ty] [DecidableEq Ty]
    (mat : XArray Ty) (hsq : mat.shape0 = mat.shape1) (_hsing : mat.singular) :
    (invert_gauss_jordan mat).1 = Outcome.done ∧
    (invert_gauss_jordan mat).2.shape0 = mat.shape0 ∧
    (invert_gauss_jordan mat).2.shape1 = mat.shape1 ∧
    ∀ i j, i < mat.shape0 → j < mat.shape1 →
      (invert_gauss_jordan mat).2.data i j
        = (reduce_echelon (augment mat)).2.data i (mat.shape0 + j) := by
  obtain ⟨h1, h2⟩ := invert_gauss_jordan_done mat
  refine ⟨h1, ?_, ?_, ?_⟩
  · rw [h2]; exact (copy_back_shape _ _ _ _).1
  · rw [h2]; exact (copy_back_shape _ _ _ _).2
  · intro i j hi hj
    rw [h2, copy_back_data, if_pos ⟨hi, by omega⟩]

/-- C6, amended, on the singular matrix `[[1,2],[2,4]]`. -/
theorem invert_gauss_jordan_singular_no_error_witness :
    (invert_gauss_jordan (XArray.ofLists [[1, 2], [2, 4]] : XArray ℚ)).1 = Outcome.done :=
  (invert_gauss_jordan_singular_no_error (XArray.ofLists [[1, 2], [2, 4]] : XArray ℚ)
    (by decide!) ⟨1, by decide!, by decide!⟩).1

/-- C7, as the claim states it, fails: on the 2 x 3 array `[[1,2,3],[4,5,6]]`
`invert_gauss_jordan` throws nothing; it builds the 2 x 4 augmented array
`[[1,2,1,0],[4,5,0,1]]` and leaves `[[-5/3,2/3,3],[4/3,-1/3,6]]`. -/
theorem invert_gauss_jordan_non_square_returns :
    (XArray.ofLists [[1, 2, 3], [4, 5, 6]] : XArray ℚ).shape0
      ≠ (XArray.ofLists [[1, 2, 3], [4, 5, 6]] : XArray ℚ).shape1 ∧
    (invert_gauss_jordan (XArray.ofLists [[1, 2, 3], [4, 5, 6]] : XArray ℚ)).1
      = Outcome.done ∧
    (augment (XArray.ofLists [[1, 2, 3], [4, 5, 6]] : XArray ℚ)).toLists
      = [[1, 2, 1, 0], [4, 5, 0, 1]] ∧
    (invert_gauss_jordan (XArray.ofLists [[1, 2, 3], [4, 5, 6]] : XArray ℚ)).2.toLists
      = [[-5 / 3, 2 / 3, 3], [4 / 3, -1 / 3, 6]] := by
  decide!

/-- C7, amended: on every array with fewer rows than columns
`invert_gauss_jordan` throws nothing; it returns, the shape is unchanged, the
block of the first `shape0` columns holds the right half of what
`reduce_echelon` left of the augmented array, and the remaining columns are
unchanged. -/
theorem invert_gauss_jordan_wide_no_error {Ty : Type} [Field Ty] [DecidableEq Ty]
    (mat : XArray Ty) (_hwide : mat.shape0 < mat.shape1) :
    (invert_gauss_jordan mat).1 = Outcome.done ∧
    (invert_gauss_jordan mat).2.shape0 = mat.shape0 ∧
    (invert_gauss_jordan mat).2.shape1 = mat.shape1 ∧
    (∀ i j, i < mat.shape0 → j < mat.shape0 →
      (invert_gauss_jordan mat).2.data i j
        = (reduce_echelon (augment mat)).2.data i (mat.shape0 + j)) ∧
    (∀ i j, i < mat.shape0 → mat.shape0 ≤ j → j < mat.shape1 →
      (invert_gauss_jordan mat).2.data i j = mat.data i j) := by
  obtain ⟨h1, h2⟩ := invert_gauss_jordan_done mat
  refine ⟨h1, ?_, ?_, ?_, ?_⟩
  · rw [h2]; exact (copy_back_shape _ _ _ _).1
  · rw [h2]; exact (copy_back_shape _ _ _ _).2
  · intro i j hi hj
    rw [h2, copy_back_data, if_pos ⟨hi, hj⟩]
  · intro i j hi hj _
    rw [h2, copy_back_data, if_neg (by omega)]

/-- C7, amended, on the 2 x 3 array `[[1,2,3],[4,5,6]]`. -/
theorem invert_gauss_jordan_wide_no_error_witness :
    (invert_gauss_jordan (XArray.ofLists [[1, 2, 3], [4, 5, 6]] : XArray ℚ)).1
      = Outcome.done :=
  (invert_gauss_jordan_wide_no_error (XArray.ofLists [[1, 2, 3], [4, 5, 6]] : XArray ℚ)
    (by decide!)).1

/-! ## Evaluation on the inputs of the specification -/

/-- C1: the matrix `[[0,1],[2,0]]` is invertible (its inverse is
`[[0,1/2],[1,0]]`), yet `invert_gauss_jordan` leaves `[[0,1],[1,0]]` in its
place, and the product of the input with that result is `[[1,0],[0,2]]`, not
the identity. -/
theorem invert_gauss_jordan_swap_not_inverse :
    ((XArray.ofLists [[0, 1], [2, 0]] : XArray ℚ).mul
        (XArray.ofLists [[0, 1 / 2], [1, 0]])).toLists
      = (XArray.identity 2 : XArray ℚ).toLists ∧
    (invert_gauss_jordan (XArray.ofLists [[0, 1], [2, 0]] : XArray ℚ)).1 = Outcome.done ∧
    (invert_gauss_jordan (XArray.ofLists [[0, 1], [2, 0]] : XArray ℚ)).2.toLists
      = [[0, 1], [1, 0]] ∧
    ((XArray.ofLists [[0, 1], [2, 0]] : XArray ℚ).mul
        (invert_gauss_jordan (XArray.ofLists [[0, 1], [2, 0]] : XArray ℚ)).2).toLists
      = [[1, 0], [0, 2]] ∧
    ((XArray.ofLists [[0, 1], [2, 0]] : XArray ℚ).mul
        (invert_gauss_jordan (XArray.ofLists [[0, 1], [2, 0]] : XArray ℚ)).2).toLists
      ≠ (XArray.identity 2 : XArray ℚ).toLists := by
  decide!

/-- C2: `reduce_echelon` leaves `[[2,0],[0,1]]` for the input `[[0,1],[2,0]]`;
the leading entry of row 0 is `2`, so the result is not in reduced row-echelon
form. -/
theorem reduce_echelon_swap_not_rref :
    (reduce_echelon (XArray.ofLists [[0, 1], [2, 0]] : XArray ℚ)).1 = Outcome.done ∧
    (reduce_echelon (XArray.ofLists [[0, 1], [2, 0]] : XArray ℚ)).2.toLists
      = [[2, 0], [0, 1]] ∧
    ¬ (reduce_echelon (XArray.ofLists [[0, 1], [2, 0]] : XArray ℚ)).2.is_rref := by
  refine ⟨by decide!, by decide!, ?_⟩
  intro h
  have h1 := h.2.2.1 0 (by decide!) 0 (by decide!)
  revert h1
  decide!

/-- C3: for the input `[[0,0,0],[1,0,0],[0,0,3]]` of the demo, `reduce_echelon`
leaves `[[1,0,0],[0,0,0],[0,0,1]]`: the pivot of column 2 stays on row 2 and the
all-zero row stays in the middle. -/
theorem reduce_echelon_demo_input :
    (reduce_echelon (XArray.ofLists [[0, 0, 0], [1, 0, 0], [0, 0, 3]] : XArray ℚ)).1
      = Outcome.done ∧
    (reduce_echelon (XArray.ofLists [[0, 0, 0], [1, 0, 0], [0, 0, 3]] : XArray ℚ)).2.toLists
      = [[1, 0, 0], [0, 0, 0], [0, 0, 1]] ∧
    (reduce_echelon (XArray.ofLists [[0, 0, 0], [1, 0, 0], [0, 0, 3]] : XArray ℚ)).2.toLists
      ≠ [[1, 0, 0], [0, 0, 1], [0, 0, 0]] := by
  decide!

/-- C4: on `[[0,1],[2,0]]` one application of `reduce_echelon` leaves
`[[2,0],[0,1]]` and a second application leaves `[[1,0],[0,1]]`, so the
reduction is not idempotent there. -/
theorem reduce_echelon_twice_differs :
    (reduce_echelon (XArray.ofLists [[0, 1], [2, 0]] : XArray ℚ)).2.toLists
      = [[2, 0], [0, 1]] ∧
    (reduce_echelon (reduce_echelon (XArray.ofLists [[0, 1], [2, 0]] : XArray ℚ)).2).1
      = Outcome.done ∧
    (reduce_echelon (reduce_echelon (XArray.ofLists [[0, 1], [2, 0]] : XArray ℚ)).2).2.toLists
      = [[1, 0], [0, 1]] ∧
    (reduce_echelon (reduce_echelon (XArray.ofLists [[0, 1], [2, 0]] : XArray ℚ)).2).2.toLists
      ≠ (reduce_echelon (XArray.ofLists [[0, 1], [2, 0]] : XArray ℚ)).2.toLists := by
  decide!

/-- C5: inverting the invertible matrix `[[0,1],[2,0]]` twice leaves
`[[0,1],[1,0]]`, not the matrix itself. -/
theorem invert_gauss_jordan_twice_differs :
    (invert_gauss_jordan
        (invert_gauss_jordan (XArray.ofLists [[0, 1], [2, 0]] : XArray ℚ)).2).1
      = Outcome.done ∧
    (invert_gauss_jordan
        (invert_gauss_jordan (XArray.ofLists [[0, 1], [2, 0]] : XArray ℚ)).2).2.toLists
      = [[0, 1], [1, 0]] ∧
    (invert_gauss_jordan
        (invert_gauss_jordan (XArray.ofLists [[0, 1], [2, 0]] : XArray ℚ)).2).2.toLists
      ≠ (XArray.ofLists [[0, 1], [2, 0]] : XArray ℚ).toLists := by
  decide!

/-- C9: `swap_row` on a 1 x 1 and a 2 x 1 array (equal column counts, both row
indices in range) throws the dimension error, and on a 1 x 2 and a 1 x 1 array
(different column counts) it throws nothing: the check compares the row
counts. -/
theorem swap_row_checks_row_counts :
    (two_arrays (XArray.ofLists [[1]] : XArray ℚ) (XArray.ofLists [[2], [3]]) false).shape1
      = (two_arrays (XArray.ofLists [[1]] : XArray ℚ) (XArray.ofLists [[2], [3]]) true).shape1 ∧
    (swap_row (two_arrays (XArray.ofLists [[1]] : XArray ℚ) (XArray.ofLists [[2], [3]]))
        false true 0 0).1 = Outcome.thrown Error.runtime_error ∧
    (two_arrays (XArray.ofLists [[1, 2]] : XArray ℚ) (XArray.ofLists [[3]]) false).shape1
      ≠ (two_arrays (XArray.ofLists [[1, 2]] : XArray ℚ) (XArray.ofLists [[3]]) true).shape1 ∧
    (swap_row (two_arrays (XArray.ofLists [[1, 2]] : XArray ℚ) (XArray.ofLists [[3]]))
        false true 0 0).1 = Outcome.done := by
  decide!

/-! ## Columns without a pivot -/

/-- The pivot search reports no row when column `col` is zero in every row
`col .. shape0-1`. -/
theorem find_nz_of_zero {Ty : Type} [Zero Ty] [DecidableEq Ty] (mat : XArray Ty)
    (shape0 col : Nat) (h : ∀ row, col ≤ row → row < shape0 → mat.data row col = 0) :
    (find_nz mat shape0 col).2 = false := by
  cases hf : (find_nz mat shape0 col).2 with
  | false => rfl
  | true =>
    obtain ⟨h1, h2, h3, _⟩ := find_nz_found mat shape0 col hf
    exact absurd (h _ h1 h2) h3

/-- A column in which no pivot is found is left as it is. -/
theorem reduce_col_no_pivot {Ty : Type} [Field Ty] [DecidableEq Ty] (shape0 shape1 : Nat)
    (mat : XArray Ty) (col : Nat) (h : (find_nz mat shape0 col).2 = false) :
    reduce_col shape0 shape1 mat col = (Outcome.done, mat) := by
  unfold reduce_col
  simp only [h, Bool.false_eq_true, if_false]

/-- When no pivot is found in any of the columns `0 .. k-1`, the column loop
leaves the array as it is. -/
theorem reduce_cols_no_pivot {Ty : Type} [Field Ty] [DecidableEq Ty] (shape0 shape1 : Nat)
    (mat : XArray Ty) (k : Nat) (h : ∀ col < k, (find_nz mat shape0 col).2 = false) :
    reduce_cols shape0 shape1 mat k = (Outcome.done, mat) := by
  induction k with
  | zero => rfl
  | succ k ih =>
    have ih' := ih (fun col hc => h col (by omega))
    unfold reduce_cols at ih' ⊢
    rw [List.range_succ, List.foldl_append, ih']
    simp only [List.foldl_cons, List.foldl_nil]
    exact reduce_col_no_pivot shape0 shape1 mat k (h k (by omega))

/-- C12: on an array whose elements are all zero, `reduce_echelon` finds no
pivot in any column (so it divides by nothing) and returns the array
unchanged. -/
theorem reduce_echelon_all_zero {Ty : Type} [Field Ty] [DecidableEq Ty] (mat : XArray Ty)
    (hzero : ∀ i j, i < mat.shape0 → j < mat.shape1 → mat.data i j = 0) :
    (∀ col < mat.shape1, (find_nz mat mat.shape0 col).2 = false) ∧
    reduce_echelon mat = (Outcome.done, mat) := by
  have hnz : ∀ col < mat.shape1, (find_nz mat mat.shape0 col).2 = false := by
    intro col hc
    exact find_nz_of_zero mat mat.shape0 col (fun row _ hr => hzero row col hr hc)
  exact ⟨hnz, reduce_cols_no_pivot mat.shape0 mat.shape1 mat mat.shape1 hnz⟩

/-- C12, on the all-zero 2 x 3 array. -/
theorem reduce_echelon_all_zero_witness :
    reduce_echelon (XArray.ofLists [[0, 0, 0], [0, 0, 0]] : XArray ℚ)
      = (Outcome.done, XArray.ofLists [[0, 0, 0], [0, 0, 0]]) :=
  (reduce_echelon_all_zero (XArray.ofLists [[0, 0, 0], [0, 0, 0]] : XArray ℚ)
    (by
      intro i j hi hj
      have hi' : i < 2 := hi
      have hj' : j < 3 := hj
      interval_cases i <;> interval_cases j <;> rfl)).2

/-- C20: when every element on or below the diagonal is zero, `reduce_echelon`
finds no pivot in any column and returns the array unchanged. -/
theorem reduce_echelon_strictly_upper {Ty : Type} [Field Ty] [DecidableEq Ty]
    (mat : XArray Ty)
    (hlow : ∀ r c, r < mat.shape0 → c < mat.shape1 → c ≤ r → mat.data r c = 0) :
    (∀ col < mat.shape1, (find_nz mat mat.shape0 col).2 = false) ∧
    reduce_echelon mat = (Outcome.done, mat) := by
  have hnz : ∀ col < mat.shape1, (find_nz mat mat.shape0 col).2 = false := by
    intro col hc
    exact find_nz_of_zero mat mat.shape0 col (fun row h1 hr => hlow row col hr hc h1)
  exact ⟨hnz, reduce_cols_no_pivot mat.shape0 mat.shape1 mat mat.shape1 hnz⟩

/-- C20, on `[[0,2],[0,0]]`: the array is neither normalised nor changed. -/
theorem reduce_echelon_strictly_upper_witness :
    reduce_echelon (XArray.ofLists [[0, 2], [0, 0]] : XArray ℚ)
      = (Outcome.done, XArray.ofLists [[0, 2], [0, 0]]) :=
  (reduce_echelon_strictly_upper (XArray.ofLists [[0, 2], [0, 0]] : XArray ℚ)
    (by
      intro r c hr hc hle
      have hr' : r < 2 := hr
      have hc' : c < 2 := hc
      interval_cases r <;> interval_cases c <;> rfl)).2

/-- Two arrays with the same shape and the same elements are equal. -/
theorem XArray.ext_data {Ty : Type} (a b : XArray Ty) (h0 : a.shape0 = b.shape0)
    (h1 : a.shape1 = b.shape1) (hd : ∀ i j, a.data i j = b.data i j) : a = b := by
  cases a
  cases b
  simp only [XArray.mk.injEq]
  exact ⟨h0, h1, funext fun i => funext fun j => hd i j⟩

/-- C13: exchanging a row of an array with itself returns and leaves every
array of the store as it was. -/
theorem swap_row_self {Ref Ty : Type} [DecidableEq Ref] (s : Store Ref Ty) (mat : Ref)
    (i : Nat) (hi : i < (s mat).shape0) :
    swap_row s mat mat i i = (Outcome.done, s) := by
  have hd : (swap_row s mat mat i i).1 = Outcome.done :=
    (swap_row_done_iff s mat mat i i).2 ⟨hi, hi, rfl⟩
  refine Prod.ext hd ?_
  funext r
  apply XArray.ext_data
  · exact (swap_row_shape s mat mat i i r).1
  · exact (swap_row_shape s mat mat i i r).2
  · intro i' j'
    rw [swap_row_done_data s mat mat i i hd]
    by_cases h : r = mat ∧ i' = i ∧ j' < (s mat).shape1
    · rw [if_pos h]
      obtain ⟨e1, e2, _⟩ := h
      subst e1 e2
      rfl
    · rw [if_neg h, if_neg h]

/-- C13, on row 1 of `[[1,2],[3,4]]`. -/
theorem swap_row_self_witness :
    swap_row (fun _ : Unit => (XArray.ofLists [[1, 2], [3, 4]] : XArray ℚ)) () () 1 1
      = (Outcome.done, fun _ : Unit => (XArray.ofLists [[1, 2], [3, 4]] : XArray ℚ)) :=
  swap_row_self (fun _ : Unit => (XArray.ofLists [[1, 2], [3, 4]] : XArray ℚ)) () 1
    (by decide)

/-! ## The pivot -/

/-- The round of a column in which a pivot is found: exchange, division by
`pivot_value`, elimination. -/
theorem reduce_col_found {Ty : Type} [Field Ty] [DecidableEq Ty] (shape0 shape1 : Nat)
    (mat : XArray Ty) (col : Nat) (hs : mat.shape0 = shape0)
    (hf : (find_nz mat shape0 col).2 = true) :
    (move_pivot_row mat (find_nz mat shape0 col).1 col).1 = Outcome.done ∧
    reduce_col shape0 shape1 mat col
      = (Outcome.done,
          eliminate
            (divide_row (move_pivot_row mat (find_nz mat shape0 col).1 col).2 shape1
              (find_nz mat shape0 col).1 (pivot_value shape0 mat col))
            shape0 shape1 col) := by
  obtain ⟨h1, h2, _, _⟩ := find_nz_found mat shape0 col hf
  have hd : (move_pivot_row mat (find_nz mat shape0 col).1 col).1 = Outcome.done := by
    unfold move_pivot_row
    split
    · exact (swap_row_same_done_iff _ _ _).2 ⟨by omega, by omega⟩
    · rfl
  refine ⟨hd, ?_⟩
  unfold reduce_col pivot_value
  simp only [hf, if_true]
  change (match move_pivot_row mat (find_nz mat shape0 col).1 col with
    | (Outcome.thrown e, mat) => (Outcome.thrown e, mat)
    | (Outcome.done, mat) => _) = _
  generalize move_pivot_row mat (find_nz mat shape0 col).1 col = sw at hd ⊢
  obtain ⟨o, m⟩ := sw
  simp only at hd
  subst hd
  rfl

/-- The pivot read after the optional row exchange is the non-zero entry that
the pivot search found. -/
theorem pivot_value_ne_zero {Ty : Type} [Zero Ty] [DecidableEq Ty] (shape0 : Nat)
    (mat : XArray Ty) (col : Nat) (hs : mat.shape0 = shape0) (hcol : col < mat.shape1)
    (hf : (find_nz mat shape0 col).2 = true) :
    pivot_value shape0 mat col = mat.data (find_nz mat shape0 col).1 col ∧
    pivot_value shape0 mat col ≠ 0 := by
  obtain ⟨h1, h2, h3, _⟩ := find_nz_found mat shape0 col hf
  have e : pivot_value shape0 mat col = mat.data (find_nz mat shape0 col).1 col := by
    unfold pivot_value move_pivot_row
    by_cases hne : (find_nz mat shape0 col).1 ≠ col
    · rw [if_pos hne]
      have hd : (swap_row_same mat (find_nz mat shape0 col).1 col).1 = Outcome.done :=
        (swap_row_same_done_iff _ _ _).2 ⟨by omega, by omega⟩
      rw [swap_row_same_data mat _ _ hd, if_pos ⟨rfl, hcol⟩]
    · rw [if_neg hne, not_not.mp hne]
  exact ⟨e, e ▸ h3⟩

/-- C14: in every round of the column loop of `reduce_echelon` in which a pivot
is found, the value `pivot` read from `mat(col, col)` after the optional row
exchange is non-zero, and it is the value the row is divided by. -/
theorem reduce_echelon_pivot_ne_zero {Ty : Type} [Field Ty] [DecidableEq Ty]
    (mat : XArray Ty) (col : Nat) (hcol : col < mat.shape1)
    (hf : (find_nz (reduce_cols mat.shape0 mat.shape1 mat col).2 mat.shape0 col).2 = true) :
    pivot_value mat.shape0 (reduce_cols mat.shape0 mat.shape1 mat col).2 col ≠ 0 ∧
    reduce_col mat.shape0 mat.shape1 (reduce_cols mat.shape0 mat.shape1 mat col).2 col
      = (Outcome.done,
          eliminate
            (divide_row
              (move_pivot_row (reduce_cols mat.shape0 mat.shape1 mat col).2
                (find_nz (reduce_cols mat.shape0 mat.shape1 mat col).2 mat.shape0 col).1 col).2
              mat.shape1
              (find_nz (reduce_cols mat.shape0 mat.shape1 mat col).2 mat.shape0 col).1
              (pivot_value mat.shape0 (reduce_cols mat.shape0 mat.shape1 mat col).2 col))
            mat.shape0 mat.shape1 col) := by
  obtain ⟨_, h0, h1⟩ := reduce_cols_done mat.shape0 mat.shape1 mat col rfl
  exact ⟨(pivot_value_ne_zero mat.shape0 _ col h0 (by rw [h1]; exact hcol) hf).2,
    (reduce_col_found mat.shape0 mat.shape1 _ col h0 hf).2⟩

/-- C14, on column 0 of `[[0,1],[2,0]]`, where the pivot 2 is found on row 1. -/
theorem reduce_echelon_pivot_ne_zero_witness :
    pivot_value (XArray.ofLists [[0, 1], [2, 0]] : XArray ℚ).shape0
      (reduce_cols (XArray.ofLists [[0, 1], [2, 0]] : XArray ℚ).shape0
        (XArray.ofLists [[0, 1], [2, 0]] : XArray ℚ).shape1
        (XArray.ofLists [[0, 1], [2, 0]] : XArray ℚ) 0).2 0 ≠ 0 :=
  (reduce_echelon_pivot_ne_zero (XArray.ofLists [[0, 1], [2, 0]] : XArray ℚ) 0
    (by decide!) (by decide!)).1

/-! ## Evaluation on the test matrix and on a round with a row exchange -/

/-- C11, as the claim states it, fails: for `[[4, 15/2], [3, 13799/1000]]`
`invert_gauss_jordan` leaves
`[[13799/32696, -1875/8174], [-375/4087, 500/4087]]`, and none of the four
entries lies in the interval the claim gives for it. -/
theorem test_matrix_inverse_not_as_claimed :
    (invert_gauss_jordan (XArray.ofLists [[4, 15 / 2], [3, 13799 / 1000]] : XArray ℚ)).2.toLists
      = [[13799 / 32696, -1875 / 8174], [-375 / 4087, 500 / 4087]] ∧
    ¬ ((3385 : ℚ) / 10000 ≤ (invert_gauss_jordan
          (XArray.ofLists [[4, 15 / 2], [3, 13799 / 1000]] : XArray ℚ)).2.data 0 0 ∧
        (invert_gauss_jordan
          (XArray.ofLists [[4, 15 / 2], [3, 13799 / 1000]] : XArray ℚ)).2.data 0 0
          < 3386 / 10000) ∧
    ¬ ((-1841 : ℚ) / 10000 < (invert_gauss_jordan
          (XArray.ofLists [[4, 15 / 2], [3, 13799 / 1000]] : XArray ℚ)).2.data 0 1 ∧
        (invert_gauss_jordan
          (XArray.ofLists [[4, 15 / 2], [3, 13799 / 1000]] : XArray ℚ)).2.data 0 1
          ≤ -1840 / 10000) ∧
    ¬ ((-737 : ℚ) / 10000 < (invert_gauss_jordan
          (XArray.ofLists [[4, 15 / 2], [3, 13799 / 1000]] : XArray ℚ)).2.data 1 0 ∧
        (invert_gauss_jordan
          (XArray.ofLists [[4, 15 / 2], [3, 13799 / 1000]] : XArray ℚ)).2.data 1 0
          ≤ -736 / 10000) ∧
    ¬ ((982 : ℚ) / 10000 ≤ (invert_gauss_jordan
          (XArray.ofLists [[4, 15 / 2], [3, 13799 / 1000]] : XArray ℚ)).2.data 1 1 ∧
        (invert_gauss_jordan
          (XArray.ofLists [[4, 15 / 2], [3, 13799 / 1000]] : XArray ℚ)).2.data 1 1
          < 983 / 10000) := by
  decide!

/-- C11, amended: for `[[4, 15/2], [3, 13799/1000]]` `invert_gauss_jordan`
returns and leaves the inverse, whose entries truncated to four decimals are
`[[0.4220, -0.2293], [-0.0917, 0.1223]]`. -/
theorem test_matrix_inverse_decimals :
    (invert_gauss_jordan (XArray.ofLists [[4, 15 / 2], [3, 13799 / 1000]] : XArray ℚ)).1
      = Outcome.done ∧
    ((XArray.ofLists [[4, 15 / 2], [3, 13799 / 1000]] : XArray ℚ).mul
        (invert_gauss_jordan
          (XArray.ofLists [[4, 15 / 2], [3, 13799 / 1000]] : XArray ℚ)).2).toLists
      = (XArray.identity 2 : XArray ℚ).toLists ∧
    ((4220 : ℚ) / 10000 ≤ (invert_gauss_jordan
          (XArray.ofLists [[4, 15 / 2], [3, 13799 / 1000]] : XArray ℚ)).2.data 0 0 ∧
        (invert_gauss_jordan
          (XArray.ofLists [[4, 15 / 2], [3, 13799 / 1000]] : XArray ℚ)).2.data 0 0
          < 4221 / 10000) ∧
    ((-2294 : ℚ) / 10000 < (invert_gauss_jordan
          (XArray.ofLists [[4, 15 / 2], [3, 13799 / 1000]] : XArray ℚ)).2.data 0 1 ∧
        (invert_gauss_jordan
          (XArray.ofLists [[4, 15 / 2], [3, 13799 / 1000]] : XArray ℚ)).2.data 0 1
          ≤ -2293 / 10000) ∧
    ((-918 : ℚ) / 10000 < (invert_gauss_jordan
          (XArray.ofLists [[4, 15 / 2], [3, 13799 / 1000]] : XArray ℚ)).2.data 1 0 ∧
        (invert_gauss_jordan
          (XArray.ofLists [[4, 15 / 2], [3, 13799 / 1000]] : XArray ℚ)).2.data 1 0
          ≤ -917 / 10000) ∧
    ((1223 : ℚ) / 10000 ≤ (invert_gauss_jordan
          (XArray.ofLists [[4, 15 / 2], [3, 13799 / 1000]] : XArray ℚ)).2.data 1 1 ∧
        (invert_gauss_jordan
          (XArray.ofLists [[4, 15 / 2], [3, 13799 / 1000]] : XArray ℚ)).2.data 1 1
          < 1224 / 10000) := by
  decide!

/-- C15: on `[[0,1],[2,0]]` the pivot of column 0 is found on row 1, so a row
exchange takes place; after the round of column 0 the array is
`[[2,0],[0,1/2]]`, with `mat[0][0] = 2`.  On `[[0,1],[2,0],[2,5]]` the round of
column 0 leaves `[[2,0],[0,1/2],[-2,5]]`, with `mat[2][0] = -2`. -/
theorem reduce_echelon_round_after_swap :
    find_nz (XArray.ofLists [[0, 1], [2, 0]] : XArray ℚ) 2 0 = (1, true) ∧
    (reduce_cols 2 2 (XArray.ofLists [[0, 1], [2, 0]] : XArray ℚ) 1).2.toLists
      = [[2, 0], [0, 1 / 2]] ∧
    (reduce_cols 2 2 (XArray.ofLists [[0, 1], [2, 0]] : XArray ℚ) 1).2.data 0 0 ≠ 1 ∧
    find_nz (XArray.ofLists [[0, 1], [2, 0], [2, 5]] : XArray ℚ) 3 0 = (1, true) ∧
    (reduce_cols 3 2 (XArray.ofLists [[0, 1], [2, 0], [2, 5]] : XArray ℚ) 1).2.toLists
      = [[2, 0], [0, 1 / 2], [-2, 5]] ∧
    (reduce_cols 3 2 (XArray.ofLists [[0, 1], [2, 0], [2, 5]] : XArray ℚ) 1).2.data 2 0
      ≠ 0 := by
  decide!

/-! ## Every element access is inside the shape -/

/-- A checked loop whose every round succeeds and agrees with the unchecked
round, as long as an invariant `P` holds, succeeds and agrees with the
unchecked loop. -/
theorem foldlM_eq_some {α β : Type} (f : β → α → Option β) (g : β → α → β) (P : β → Prop)
    (l : List α) (b : β) (hb : P b)
    (h : ∀ b a, a ∈ l → P b → f b a = some (g b a) ∧ P (g b a)) :
    l.foldlM f b = some (l.foldl g b) ∧ P (l.foldl g b) := by
  induction l generalizing b with
  | nil => exact ⟨rfl, hb⟩
  | cons a l ih =>
    obtain ⟨h1, h2⟩ := h b a (List.mem_cons_self a l) hb
    rw [List.foldlM_cons, h1, List.foldl_cons]
    exact ih (g b a) h2 (fun b' a' ha' hb' => h b' a' (List.mem_cons_of_mem a ha') hb')

theorem XArray.read_eq {Ty : Type} (mat : XArray Ty) (i j : Nat) (hi : i < mat.shape0)
    (hj : j < mat.shape1) : mat.read i j = some (mat.data i j) := by
  unfold XArray.read
  rw [if_pos ⟨hi, hj⟩]

theorem XArray.write_eq {Ty : Type} (mat : XArray Ty) (i j : Nat) (v : Ty)
    (hi : i < mat.shape0) (hj : j < mat.shape1) : mat.write i j v = some (mat.set i j v) := by
  unfold XArray.write
  rw [if_pos ⟨hi, hj⟩]

theorem find_nz_checked_eq {Ty : Type} [Zero Ty] [DecidableEq Ty] (mat : XArray Ty)
    (shape0 col : Nat) (hs : shape0 ≤ mat.shape0) (hc : col < mat.shape1) :
    find_nz_checked mat shape0 col = some (find_nz mat shape0 col) := by
  unfold find_nz_checked find_nz
  refine (foldlM_eq_some _ _ (fun _ => True) _ _ trivial ?_).1
  intro st row hrow _
  have hr := List.mem_range'_1.1 hrow
  refine ⟨?_, trivial⟩
  by_cases hst : st.2 = true
  · simp only [hst, if_true]
  · simp only [hst, Bool.false_eq_true, if_false]
    rw [XArray.read_eq mat row col (by omega) hc]
    simp only [Option.bind_eq_bind, Option.some_bind]
    split <;> rfl

theorem divide_row_checked_eq {Ty : Type} [Field Ty] (mat : XArray Ty) (shape1 nz_idx : Nat)
    (pivot : Ty) (hn : nz_idx < mat.shape0) (hs : shape1 ≤ mat.shape1) :
    divide_row_checked mat shape1 nz_idx pivot = some (divide_row mat shape1 nz_idx pivot) := by
  unfold divide_row_checked divide_row
  refine (foldlM_eq_some _ _ (fun m => m.shape0 = mat.shape0 ∧ m.shape1 = mat.shape1)
    _ _ ⟨rfl, rfl⟩ ?_).1
  intro m i hi hm
  have hi' := List.mem_range.1 hi
  refine ⟨?_, hm⟩
  rw [XArray.read_eq m nz_idx i (by omega) (by omega)]
  simp only [Option.bind_eq_bind, Option.some_bind]
  exact XArray.write_eq m nz_idx i _ (by omega) (by omega)

theorem gauss_move_checked_eq {Ty : Type} [Field Ty] (mat : XArray Ty) (shape1 col i : Nat)
    (lambda : Ty) (hi : i < mat.shape0) (hc : col < mat.shape0) (hs : shape1 ≤ mat.shape1) :
    gauss_move_checked mat shape1 col i lambda = some (gauss_move mat shape1 col i lambda) := by
  unfold gauss_move_checked gauss_move
  refine (foldlM_eq_some _ _ (fun m => m.shape0 = mat.shape0 ∧ m.shape1 = mat.shape1)
    _ _ ⟨rfl, rfl⟩ ?_).1
  intro m j hj hm
  have hj' := List.mem_range.1 hj
  refine ⟨?_, hm⟩
  rw [XArray.read_eq m i j (by omega) (by omega), XArray.read_eq m col j (by omega) (by omega)]
  simp only [Option.bind_eq_bind, Option.some_bind]
  exact XArray.write_eq m i j _ (by omega) (by omega)

theorem eliminate_checked_eq {Ty : Type} [Field Ty] [DecidableEq Ty] (mat : XArray Ty)
    (shape0 shape1 col : Nat) (h0 : shape0 ≤ mat.shape0) (h1 : shape1 ≤ mat.shape1)
    (hc0 : col < mat.shape0) (hc1 : col < mat.shape1) :
    eliminate_checked mat shape0 shape1 col = some (eliminate mat shape0 shape1 col) := by
  unfold eliminate_checked eliminate
  refine (foldlM_eq_some _ _ (fun m => m.shape0 = mat.shape0 ∧ m.shape1 = mat.shape1)
    _ _ ⟨rfl, rfl⟩ ?_).1
  intro m i hi hm
  have hi' := List.mem_range.1 hi
  by_cases hic : i ≠ col
  · simp only [hic, ne_eq, not_false_eq_true, if_true, true_and]
    rw [XArray.read_eq m i col (by omega) (by omega)]
    simp only [Option.bind_eq_bind, Option.some_bind]
    by_cases hx : m.data i col = 0
    · simp only [hx, not_true_eq_false, if_false]
      exact ⟨trivial, hm⟩
    · simp only [hx, not_false_eq_true, if_true]
      refine ⟨gauss_move_checked_eq m shape1 col i _ (by omega) (by omega) (by omega), ?_⟩
      exact ⟨(gauss_move_shape _ _ _ _ _).1.trans hm.1, (gauss_move_shape _ _ _ _ _).2.trans hm.2⟩
  · simp only [hic, if_false, false_and]
    exact ⟨trivial, hm⟩

theorem reduce_col_checked_eq {Ty : Type} [Field Ty] [DecidableEq Ty] (shape0 shape1 : Nat)
    (mat : XArray Ty) (col : Nat) (h0 : mat.shape0 = shape0) (h1 : mat.shape1 = shape1)
    (hc : col < shape1) :
    reduce_col_checked shape0 shape1 mat col = some (reduce_col shape0 shape1 mat col) := by
  unfold reduce_col_checked
  rw [find_nz_checked_eq mat shape0 col (by omega) (by omega)]
  simp only [Option.bind_eq_bind, Option.some_bind]
  cases hf : (find_nz mat shape0 col).2 with
  | false =>
    rw [reduce_col_no_pivot shape0 shape1 mat col hf]
    simp
  | true =>
    obtain ⟨hd, he⟩ := reduce_col_found shape0 shape1 mat col h0 hf
    obtain ⟨g1, g2, _, _⟩ := find_nz_found mat shape0 col hf
    have hsh : (move_pivot_row mat (find_nz mat shape0 col).1 col).2.shape0 = mat.shape0 ∧
        (move_pivot_row mat (find_nz mat shape0 col).1 col).2.shape1 = mat.shape1 := by
      unfold move_pivot_row
      split
      · exact swap_row_same_shape _ _ _
      · exact ⟨rfl, rfl⟩
    rw [he]
    simp only [if_true]
    change (match move_pivot_row mat (find_nz mat shape0 col).1 col with
      | (Outcome.thrown e, mat) => some (Outcome.thrown e, mat)
      | (Outcome.done, mat) => _) = _
    unfold pivot_value
    generalize move_pivot_row mat (find_nz mat shape0 col).1 col = sw at hd hsh ⊢
    obtain ⟨o, m⟩ := sw
    simp only at hd hsh
    subst hd
    simp only
    rw [XArray.read_eq m col col (by omega) (by omega)]
    simp only [Option.some_bind]
    rw [divide_row_checked_eq m shape1 _ _ (by omega) (by omega)]
    simp only [Option.some_bind]
    rw [eliminate_checked_eq _ shape0 shape1 col
      (by rw [(divide_row_shape _ _ _ _).1]; omega)
      (by rw [(divide_row_shape _ _ _ _).2]; omega)
      (by rw [(divide_row_shape _ _ _ _).1]; omega)
      (by rw [(divide_row_shape _ _ _ _).2]; omega)]
    simp only [Option.some_bind]

/-- The checked reduction never meets an access outside the shape: it agrees
with `reduce_echelon`. -/
theorem reduce_echelon_checked_eq {Ty : Type} [Field Ty] [DecidableEq Ty] (mat : XArray Ty) :
    reduce_echelon_checked mat = some (reduce_echelon mat) := by
  unfold reduce_echelon_checked reduce_echelon reduce_cols
  refine (foldlM_eq_some _ _
    (fun st => st.1 = Outcome.done ∧ st.2.shape0 = mat.shape0 ∧ st.2.shape1 = mat.shape1)
    _ _ ⟨rfl, rfl, rfl⟩ ?_).1
  intro st col hcol hst
  obtain ⟨o, m⟩ := st
  obtain ⟨e1, e2, e3⟩ := hst
  simp only at e1 e2 e3
  subst e1
  simp only
  obtain ⟨g1, g2, g3⟩ := reduce_col_done mat.shape0 mat.shape1 m col e2
  exact ⟨reduce_col_checked_eq _ _ m col e2 e3 (List.mem_range.1 hcol),
    g1, g2.trans e2, g3.trans e3⟩

/-- C16: `reduce_echelon` is total.  Run with every element access checked
against the shape, it meets no access outside the shape and gives the result of
the unchecked run; it returns without a throw and keeps the shape; and in every
round in which a pivot is found both row indices passed to `swap_row` are below
the row count, so that call returns. -/
theorem reduce_echelon_total {Ty : Type} [Field Ty] [DecidableEq Ty] (mat : XArray Ty) :
    reduce_echelon_checked mat = some (reduce_echelon mat) ∧
    (reduce_echelon mat).1 = Outcome.done ∧
    (reduce_echelon mat).2.shape0 = mat.shape0 ∧
    (reduce_echelon mat).2.shape1 = mat.shape1 ∧
    ∀ col < mat.shape1,
      (find_nz (reduce_cols mat.shape0 mat.shape1 mat col).2 mat.shape0 col).2 = true →
        (find_nz (reduce_cols mat.shape0 mat.shape1 mat col).2 mat.shape0 col).1
          < (reduce_cols mat.shape0 mat.shape1 mat col).2.shape0 ∧
        col < (reduce_cols mat.shape0 mat.shape1 mat col).2.shape0 ∧
        (swap_row_same (reduce_cols mat.shape0 mat.shape1 mat col).2
          (find_nz (reduce_cols mat.shape0 mat.shape1 mat col).2 mat.shape0 col).1 col).1
          = Outcome.done := by
  obtain ⟨h1, h2, h3⟩ := reduce_echelon_done mat
  refine ⟨reduce_echelon_checked_eq mat, h1, h2, h3, ?_⟩
  intro col _ hf
  obtain ⟨_, e0, _⟩ := reduce_cols_done mat.shape0 mat.shape1 mat col rfl
  obtain ⟨g1, g2, _, _⟩ := find_nz_found _ mat.shape0 col hf
  have a1 : (find_nz (reduce_cols mat.shape0 mat.shape1 mat col).2 mat.shape0 col).1
      < (reduce_cols mat.shape0 mat.shape1 mat col).2.shape0 := by omega
  have a2 : col < (reduce_cols mat.shape0 mat.shape1 mat col).2.shape0 := by omega
  exact ⟨a1, a2, (swap_row_same_done_iff _ _ _).2 ⟨a1, a2⟩⟩

/-! ## Row operations as matrix products -/

theorem row_equivalent_refl {Ty : Type} [Field Ty] (R C : Nat) (a : XArray Ty) :
    row_equivalent R C a a :=
  ⟨1, isUnit_one, (Matrix.one_mul _).symm⟩

theorem row_equivalent_trans {Ty : Type} [Field Ty] (R C : Nat) (a b c : XArray Ty)
    (hab : row_equivalent R C a b) (hbc : row_equivalent R C b c) :
    row_equivalent R C a c := by
  obtain ⟨E, hE, h1⟩ := hab
  obtain ⟨F, hF, h2⟩ := hbc
  exact ⟨F * E, hF.mul hE, by rw [h2, h1, Matrix.mul_assoc]⟩

/-- Arrays with the same elements inside the shape are row equivalent. -/
theorem row_equivalent_of_data_eq {Ty : Type} [Field Ty] (R C : Nat) (a b : XArray Ty)
    (h : ∀ i j, i < R → j < C → b.data i j = a.data i j) : row_equivalent R C a b := by
  refine ⟨1, isUnit_one, ?_⟩
  rw [Matrix.one_mul]
  ext i j
  exact h i.val j.val i.isLt j.isLt

/-- The contents after the division loop. -/
theorem divide_row_data {Ty : Type} [Field Ty] (mat : XArray Ty) (shape1 nz_idx : Nat)
    (pivot : Ty) (i j : Nat) :
    (divide_row mat shape1 nz_idx pivot).data i j
      = if i = nz_idx ∧ j < shape1 then mat.data nz_idx j / pivot else mat.data i j := by
  unfold divide_row
  induction shape1 generalizing i j with
  | zero => simp
  | succ n ih =>
    rw [List.range_succ, List.foldl_append]
    simp only [List.foldl_cons, List.foldl_nil, XArray.set_data, ih]
    by_cases hi : i = nz_idx
    · by_cases hj : j = n
      · subst hj; simp [hi]
      · have : j < n + 1 ↔ j < n := by omega
        simp [hi, hj, this]
    · simp [hi]

/-- The contents after a Gauss move on a row other than the pivot row. -/
theorem gauss_move_data {Ty : Type} [Field Ty] (mat : XArray Ty) (shape1 col i : Nat)
    (lambda : Ty) (hne : i ≠ col) (i' j : Nat) :
    (gauss_move mat shape1 col i lambda).data i' j
      = if i' = i ∧ j < shape1 then mat.data i j - mat.data col j * lambda
        else mat.data i' j := by
  unfold gauss_move
  induction shape1 generalizing i' j with
  | zero => simp
  | succ n ih =>
    rw [List.range_succ, List.foldl_append]
    simp only [List.foldl_cons, List.foldl_nil, XArray.set_data, ih]
    by_cases hi : i' = i
    · by_cases hj : j = n
      · subst hj; simp [hi, hne.symm]
      · have : j < n + 1 ↔ j < n := by omega
        simp [hi, hj, this]
    · simp [hi]

/-- Dividing a row by a non-zero value is a product with an invertible matrix. -/
theorem divide_row_row_equivalent {Ty : Type} [Field Ty] (R C : Nat) (mat : XArray Ty)
    (nz_idx : Nat) (pivot : Ty) (hp : pivot ≠ 0) :
    row_equivalent R C mat (divide_row mat C nz_idx pivot) := by
  refine ⟨Matrix.diagonal (fun i : Fin R => if i.val = nz_idx then pivot⁻¹ else 1), ?_, ?_⟩
  · rw [Matrix.isUnit_iff_isUnit_det, Matrix.det_diagonal, isUnit_iff_ne_zero,
      Finset.prod_ne_zero_iff]
    intro i _
    split
    · exact inv_ne_zero hp
    · exact one_ne_zero
  · ext i j
    rw [Matrix.diagonal_mul]
    simp only [XArray.toMatrix, divide_row_data, j.isLt, and_true]
    split
    · rename_i h
      rw [h, div_eq_inv_mul]
    · rw [one_mul]

/-- The product of a transvection with a rectangular matrix. -/
theorem transvection_mul_apply {Ty : Type} [Field Ty] (R C : Nat) (r c : Fin R) (x : Ty)
    (M : Matrix (Fin R) (Fin C) Ty) (i : Fin R) (j : Fin C) :
    (Matrix.transvection r c x * M) i j = M i j + (if i = r then x * M c j else 0) := by
  rw [Matrix.transvection, Matrix.add_mul, Matrix.one_mul, Matrix.add_apply]
  congr 1
  simp only [Matrix.mul_apply, Matrix.stdBasisMatrix, Matrix.of_apply]
  by_cases h : i = r
  · subst h
    simp
  · have h' : ¬ r = i := fun e => h e.symm
    simp [h, h']

/-- A Gauss move on a row other than the pivot row is a product with an
invertible matrix. -/
theorem gauss_move_row_equivalent {Ty : Type} [Field Ty] (R C : Nat) (mat : XArray Ty)
    (col i : Nat) (lambda : Ty) (hne : i ≠ col) (hi : i < R) (hc : col < R) :
    row_equivalent R C mat (gauss_move mat C col i lambda) := by
  refine ⟨Matrix.transvection ⟨i, hi⟩ ⟨col, hc⟩ (-lambda), ?_, ?_⟩
  · rw [Matrix.isUnit_iff_isUnit_det, Matrix.det_transvection_of_ne]
    · exact isUnit_one
    · intro h
      exact hne (Fin.mk.inj_iff.1 h)
  · ext a j
    rw [transvection_mul_apply]
    simp only [XArray.toMatrix, gauss_move_data mat C col i lambda hne, j.isLt, and_true]
    by_cases h : a.val = i
    · subst h
      rw [if_pos rfl, if_pos (Fin.ext rfl)]
      ring
    · have h' : ¬ a = ⟨i, hi⟩ := fun e => h (congrArg Fin.val e)
      rw [if_neg h, if_neg h', add_zero]

/-- Exchanging two rows is a product with an invertible matrix. -/
theorem swap_row_same_row_equivalent {Ty : Type} [Field Ty] (mat : XArray Ty)
    (row0 row1 : Nat) (h0 : row0 < mat.shape0) (h1 : row1 < mat.shape0) :
    row_equivalent mat.shape0 mat.shape1 mat (swap_row_same mat row0 row1).2 := by
  have hd : (swap_row_same mat row0 row1).1 = Outcome.done :=
    (swap_row_same_done_iff _ _ _).2 ⟨h0, h1⟩
  have hEE : ((Equiv.swap (⟨row0, h0⟩ : Fin mat.shape0) ⟨row1, h1⟩).toPEquiv.toMatrix :
        Matrix (Fin mat.shape0) (Fin mat.shape0) Ty)
      * (Equiv.swap (⟨row0, h0⟩ : Fin mat.shape0) ⟨row1, h1⟩).toPEquiv.toMatrix = 1 := by
    rw [PEquiv.toPEquiv_mul_matrix]
    ext i j
    simp [PEquiv.toMatrix_apply, Equiv.toPEquiv_apply, Matrix.one_apply]
  refine ⟨(Equiv.swap (⟨row0, h0⟩ : Fin mat.shape0) ⟨row1, h1⟩).toPEquiv.toMatrix,
    ⟨⟨_, _, hEE, hEE⟩, rfl⟩, ?_⟩
  · rw [PEquiv.toPEquiv_mul_matrix]
    ext i j
    simp only [XArray.toMatrix, Matrix.submatrix_apply, id, swap_row_same_data mat _ _ hd,
      j.isLt, and_true, Equiv.swap_apply_def]
    by_cases hb : i.val = row1
    · have hb' : i = ⟨row1, h1⟩ := Fin.ext hb
      rw [if_pos hb]
      by_cases ha : i = ⟨row0, h0⟩
      · rw [if_pos ha]
        have : row0 = row1 := by rw [← hb, ha]
        simp [this]
      · rw [if_neg ha, if_pos hb']
    · have hb' : ¬ i = ⟨row1, h1⟩ := fun e => hb (congrArg Fin.val e)
      rw [if_neg hb]
      by_cases ha : i.val = row0
      · have ha' : i = ⟨row0, h0⟩ := Fin.ext ha
        rw [if_pos ha, if_pos ha']
      · have ha' : ¬ i = ⟨row0, h0⟩ := fun e => ha (congrArg Fin.val e)
        rw [if_neg ha, if_neg ha', if_neg hb']

/-- A loop whose every round is a product with an invertible matrix, as long as
an invariant `P` holds, is a product with an invertible matrix. -/
theorem foldl_row_equivalent {Ty α : Type} [Field Ty] (R C : Nat)
    (f : XArray Ty → α → XArray Ty) (P : XArray Ty → Prop) (l : List α) (mat : XArray Ty)
    (hm : P mat)
    (h : ∀ m a, a ∈ l → P m → row_equivalent R C m (f m a) ∧ P (f m a)) :
    row_equivalent R C mat (l.foldl f mat) ∧ P (l.foldl f mat) := by
  induction l generalizing mat with
  | nil => exact ⟨row_equivalent_refl R C mat, hm⟩
  | cons a l ih =>
    obtain ⟨h1, h2⟩ := h mat a (List.mem_cons_self a l) hm
    obtain ⟨g1, g2⟩ := ih (f mat a) h2
      (fun m b hb hP => h m b (List.mem_cons_of_mem a hb) hP)
    exact ⟨row_equivalent_trans R C _ _ _ h1 g1, g2⟩

/-- The elimination loop is a product with an invertible matrix. -/
theorem eliminate_row_equivalent {Ty : Type} [Field Ty] [DecidableEq Ty] (R C : Nat)
    (mat : XArray Ty) (col : Nat) (hc : col < R) :
    row_equivalent R C mat (eliminate mat R C col) := by
  unfold eliminate
  refine (foldl_row_equivalent R C _ (fun _ => True) _ mat trivial ?_).1
  intro m i hi _
  refine ⟨?_, trivial⟩
  split
  · rename_i h
    exact gauss_move_row_equivalent R C m col i _ h.1 (List.mem_range.1 hi) hc
  · exact row_equivalent_refl R C m

/-- One round of the column loop is a product with an invertible matrix. -/
theorem reduce_col_row_equivalent {Ty : Type} [Field Ty] [DecidableEq Ty] (mat : XArray Ty)
    (col : Nat) (hcol : col < mat.shape1) :
    row_equivalent mat.shape0 mat.shape1 mat (reduce_col mat.shape0 mat.shape1 mat col).2 := by
  cases hf : (find_nz mat mat.shape0 col).2 with
  | false =>
    rw [reduce_col_no_pivot mat.shape0 mat.shape1 mat col hf]
    exact row_equivalent_refl _ _ mat
  | true =>
    obtain ⟨g1, g2, _, _⟩ := find_nz_found mat mat.shape0 col hf
    rw [(reduce_col_found mat.shape0 mat.shape1 mat col rfl hf).2]
    have hp := (pivot_value_ne_zero mat.shape0 mat col rfl hcol hf).2
    have hsw : row_equivalent mat.shape0 mat.shape1 mat
        (move_pivot_row mat (find_nz mat mat.shape0 col).1 col).2 := by
      unfold move_pivot_row
      split
      · exact swap_row_same_row_equivalent mat _ _ g2 (by omega)
      · exact row_equivalent_refl _ _ mat
    exact row_equivalent_trans _ _ _ _ _ hsw
      (row_equivalent_trans _ _ _ _ _
        (divide_row_row_equivalent _ _ _ _ _ hp)
        (eliminate_row_equivalent _ _ _ col (by omega)))

/-- The column loop run for the columns `0 .. k-1` is a product with an
invertible matrix. -/
theorem reduce_cols_row_equivalent {Ty : Type} [Field Ty] [DecidableEq Ty] (mat : XArray Ty)
    (k : Nat) (hk : k ≤ mat.shape1) :
    row_equivalent mat.shape0 mat.shape1 mat (reduce_cols mat.shape0 mat.shape1 mat k).2 := by
  induction k with
  | zero => exact row_equivalent_refl _ _ mat
  | succ k ih =>
    have ih' := ih (by omega)
    obtain ⟨e1, e2, e3⟩ := reduce_cols_done mat.shape0 mat.shape1 mat k rfl
    have hstep : reduce_cols mat.shape0 mat.shape1 mat (k + 1)
        = reduce_col mat.shape0 mat.shape1 (reduce_cols mat.shape0 mat.shape1 mat k).2 k := by
      unfold reduce_cols at e1 ⊢
      rw [List.range_succ, List.foldl_append]
      simp only [List.foldl_cons, List.foldl_nil]
      generalize (List.range k).foldl _ (Outcome.done, mat) = st at e1 ⊢
      obtain ⟨o, m⟩ := st
      simp only at e1
      subst e1
      rfl
    rw [hstep]
    have hr := reduce_col_row_equivalent (reduce_cols mat.shape0 mat.shape1 mat k).2 k
      (by rw [e3]; omega)
    rw [e2, e3] at hr
    exact row_equivalent_trans _ _ _ _ _ ih' hr

/-- The reduction of an array read with the shape `(R, C)` is a product with an
invertible matrix. -/
theorem reduce_echelon_row_equivalent_shape {Ty : Type} [Field Ty] [DecidableEq Ty]
    (R C : Nat) (mat : XArray Ty) (h0 : mat.shape0 = R) (h1 : mat.shape1 = C) :
    row_equivalent R C mat (reduce_echelon mat).2 := by
  subst h0 h1
  exact reduce_cols_row_equivalent mat mat.shape1 (le_refl _)

/-- C17: `reduce_echelon` only performs invertible row operations: what it
leaves is `E × M` for an invertible `R x R` matrix `E`, where `M` is the input
of shape `(R, C)`; so the result has the rank of the input. -/
theorem reduce_echelon_invertible_row_operations {Ty : Type} [Field Ty] [DecidableEq Ty]
    (mat : XArray Ty) :
    (∃ E : Matrix (Fin mat.shape0) (Fin mat.shape0) Ty,
      IsUnit E ∧
      (reduce_echelon mat).2.toMatrix mat.shape0 mat.shape1
        = E * mat.toMatrix mat.shape0 mat.shape1) ∧
    ((reduce_echelon mat).2.toMatrix mat.shape0 mat.shape1).rank
      = (mat.toMatrix mat.shape0 mat.shape1).rank := by
  obtain ⟨E, hE, h⟩ := reduce_cols_row_equivalent mat mat.shape1 (le_refl _)
  refine ⟨⟨E, hE, h⟩, ?_⟩
  change ((reduce_cols mat.shape0 mat.shape1 mat mat.shape1).2.toMatrix
    mat.shape0 mat.shape1).rank = _
  rw [h]
  exact Matrix.rank_mul_eq_right_of_isUnit_det E _ ((Matrix.isUnit_iff_isUnit_det E).1 hE)

/-! ## The augmented array -/

/-- One row of a fill loop: the columns `s .. s+len-1` of row `i` receive the
values `v j`. -/
theorem fill_row_data {Ty : Type} (m : XArray Ty) (v : Nat → Ty) (s len i : Nat)
    (i' j' : Nat) :
    ((List.range' s len).foldl (fun m j => m.set i j (v j)) m).data i' j'
      = if i' = i ∧ s ≤ j' ∧ j' < s + len then v j' else m.data i' j' := by
  induction len with
  | zero =>
    have : ¬ (i' = i ∧ s ≤ j' ∧ j' < s + 0) := by omega
    rw [if_neg this]
    rfl
  | succ len ih =>
    rw [List.range'_concat, List.foldl_append]
    simp only [List.foldl_cons, List.foldl_nil, Nat.one_mul, XArray.set_data, ih]
    by_cases hi : i' = i
    · by_cases hj : j' = s + len
      · subst hj; simp [hi]
      · have : (s ≤ j' ∧ j' < s + (len + 1)) ↔ (s ≤ j' ∧ j' < s + len) := by omega
        simp [hi, hj, this]
    · simp [hi]

/-- A fill loop over the rows `0 .. k-1` and the columns `s .. s+len-1`. -/
theorem fill_block_data {Ty : Type} (m : XArray Ty) (v : Nat → Nat → Ty) (s len k : Nat)
    (i' j' : Nat) :
    ((List.range k).foldl
      (fun m i => (List.range' s len).foldl (fun m j => m.set i j (v i j)) m) m).data i' j'
      = if i' < k ∧ s ≤ j' ∧ j' < s + len then v i' j' else m.data i' j' := by
  induction k with
  | zero => simp
  | succ k ih =>
    rw [List.range_succ, List.foldl_append]
    simp only [List.foldl_cons, List.foldl_nil, fill_row_data, ih]
    by_cases hi : i' = k
    · subst hi; simp
    · have : i' < k + 1 ↔ i' < k := by omega
      simp [hi, this]

/-- A fill loop over the rows `0 .. k-1` and the columns `0 .. len-1`. -/
theorem fill_block_data_range {Ty : Type} (m : XArray Ty) (v : Nat → Nat → Ty) (len k : Nat)
    (i' j' : Nat) :
    ((List.range k).foldl
      (fun m i => (List.range len).foldl (fun m j => m.set i j (v i j)) m) m).data i' j'
      = if i' < k ∧ j' < len then v i' j' else m.data i' j' := by
  have h := fill_block_data m v 0 len k i' j'
  rw [← List.range_eq_range'] at h
  rw [h]
  have e : (0 ≤ j' ∧ j' < 0 + len) ↔ j' < len := by omega
  simp only [e]

/-- Fill loops keep the shape. -/
theorem fill_block_shape {Ty : Type} (m : XArray Ty) (v : Nat → Nat → Ty) (l1 l2 : List Nat) :
    (l1.foldl (fun m i => l2.foldl (fun m j => m.set i j (v i j)) m) m).shape0 = m.shape0 ∧
    (l1.foldl (fun m i => l2.foldl (fun m j => m.set i j (v i j)) m) m).shape1 = m.shape1 := by
  apply foldl_keeps_shape
  intro m i
  apply foldl_keeps_shape
  intro m j
  exact ⟨rfl, rfl⟩

/-- The shape of the augmented array is `(shape[0], 2 * shape[0])`. -/
theorem augment_shape {Ty : Type} [Field Ty] (mat : XArray Ty) :
    (augment mat).shape0 = mat.shape0 ∧ (augment mat).shape1 = 2 * mat.shape0 := by
  unfold augment
  simp only
  have h2 := fun m => @fill_block_shape Ty m
    (fun i j => if j - mat.shape0 = i then 1 else 0)
    (List.range mat.shape0) (List.range' mat.shape0 (2 * mat.shape0 - mat.shape0))
  have h1 := fun m => @fill_block_shape Ty m (fun i j => mat.data i j)
    (List.range mat.shape0) (List.range mat.shape0)
  simp only at h1 h2
  constructor
  · rw [(h2 _).1, (h1 _).1]
  · rw [(h2 _).2, (h1 _).2]

/-- The contents of the augmented array: the block of `mat` on the left, the
identity on the right. -/
theorem augment_data {Ty : Type} [Field Ty] (mat : XArray Ty) (i j : Nat) :
    (augment mat).data i j
      = if i < mat.shape0 ∧ mat.shape0 ≤ j ∧ j < 2 * mat.shape0 then
          (if j - mat.shape0 = i then 1 else 0)
        else if i < mat.shape0 ∧ j < mat.shape0 then mat.data i j
        else 0 := by
  unfold augment
  simp only
  have h2 := fun m => @fill_block_data Ty m
    (fun i j => if j - mat.shape0 = i then 1 else 0)
    mat.shape0 (2 * mat.shape0 - mat.shape0) mat.shape0 i j
  have h1 := fun m => @fill_block_data_range Ty m (fun i j => mat.data i j)
    mat.shape0 mat.shape0 i j
  simp only at h1 h2
  rw [h2, h1]
  have e1 : mat.shape0 + (2 * mat.shape0 - mat.shape0) = 2 * mat.shape0 := by omega
  simp only [e1]

/-! ## The inverse read off the reduced augmented array -/

/-- C18: when the left `n x n` block of what `reduce_echelon` leaves of
`[A | I]` is the identity, the matrix that `invert_gauss_jordan` writes back is
a two-sided inverse of `A`. -/
theorem invert_gauss_jordan_of_identity_left {Ty : Type} [Field Ty] [DecidableEq Ty]
    (mat : XArray Ty) (_hsq : mat.shape0 = mat.shape1)
    (hleft : ∀ i j, i < mat.shape0 → j < mat.shape0 →
      (reduce_echelon (augment mat)).2.data i j = if i = j then 1 else 0) :
    (invert_gauss_jordan mat).2.toMatrix mat.shape0 mat.shape0
        * mat.toMatrix mat.shape0 mat.shape0 = 1 ∧
    mat.toMatrix mat.shape0 mat.shape0
        * (invert_gauss_jordan mat).2.toMatrix mat.shape0 mat.shape0 = 1 := by
  obtain ⟨E, _, h⟩ := reduce_echelon_row_equivalent_shape mat.shape0 (2 * mat.shape0)
    (augment mat) (augment_shape mat).1 (augment_shape mat).2
  have hentry : ∀ (i : Fin mat.shape0) (j : Fin (2 * mat.shape0)),
      (reduce_echelon (augment mat)).2.data i.val j.val
        = ∑ k : Fin mat.shape0, E i k * (augment mat).data k.val j.val := by
    intro i j
    have := congrFun (congrFun h i) j
    rw [Matrix.mul_apply] at this
    exact this
  have hEA : E * mat.toMatrix mat.shape0 mat.shape0 = 1 := by
    ext i j
    rw [Matrix.mul_apply, Matrix.one_apply]
    have := hentry i ⟨j.val, by omega⟩
    rw [hleft i.val j.val i.isLt j.isLt] at this
    simp only [Fin.ext_iff]
    rw [this]
    apply Finset.sum_congr rfl
    intro k _
    have hk : ¬ (k.val < mat.shape0 ∧ mat.shape0 ≤ j.val ∧ j.val < 2 * mat.shape0) := by omega
    rw [augment_data, if_neg hk, if_pos ⟨k.isLt, j.isLt⟩]
    rfl
  have hB : (invert_gauss_jordan mat).2.toMatrix mat.shape0 mat.shape0 = E := by
    ext i j
    have := hentry i ⟨mat.shape0 + j.val, by omega⟩
    simp only [XArray.toMatrix]
    rw [(invert_gauss_jordan_done mat).2, copy_back_data, if_pos ⟨i.isLt, j.isLt⟩, this]
    have hk : ∀ k : Fin mat.shape0,
        E i k * (augment mat).data k.val (mat.shape0 + j.val)
          = if k = j then E i k else 0 := by
      intro k
      have c : k.val < mat.shape0 ∧ mat.shape0 ≤ mat.shape0 + j.val ∧
          mat.shape0 + j.val < 2 * mat.shape0 := by omega
      rw [augment_data, if_pos c, Nat.add_sub_cancel_left]
      by_cases e : k = j
      · rw [if_pos e, if_pos (congrArg Fin.val e).symm, mul_one]
      · have e' : ¬ j.val = k.val := fun x => e (Fin.ext x.symm)
        rw [if_neg e, if_neg e', mul_zero]
    simp only [hk]
    rw [Finset.sum_ite_eq' Finset.univ j (fun k => E i k), if_pos (Finset.mem_univ j)]
  rw [hB]
  exact ⟨hEA, Matrix.mul_eq_one_comm.1 hEA⟩

/-- C18, on `[[1,2],[3,4]]`, whose reduced augmented array has the identity on
the left. -/
theorem invert_gauss_jordan_of_identity_left_witness :
    (invert_gauss_jordan (XArray.ofLists [[1, 2], [3, 4]] : XArray ℚ)).2.toMatrix
        (XArray.ofLists [[1, 2], [3, 4]] : XArray ℚ).shape0
        (XArray.ofLists [[1, 2], [3, 4]] : XArray ℚ).shape0
      * (XArray.ofLists [[1, 2], [3, 4]] : XArray ℚ).toMatrix
        (XArray.ofLists [[1, 2], [3, 4]] : XArray ℚ).shape0
        (XArray.ofLists [[1, 2], [3, 4]] : XArray ℚ).shape0 = 1 :=
  (invert_gauss_jordan_of_identity_left (XArray.ofLists [[1, 2], [3, 4]] : XArray ℚ)
    (by decide!)
    (by
      intro i j hi hj
      have hi' : i < 2 := hi
      have hj' : j < 2 := hj
      interval_cases i <;> interval_cases j <;> decide!)).1

/-! ## Rounds without a row exchange -/

/-- When the diagonal entry of column `col` is non-zero, the pivot search
reports row `col` itself. -/
theorem find_nz_diagonal {Ty : Type} [Zero Ty] [DecidableEq Ty] (mat : XArray Ty)
    (shape0 col : Nat) (hc : col < shape0) (hp : mat.data col col ≠ 0) :
    find_nz mat shape0 col = (col, true) := by
  cases hf : (find_nz mat shape0 col).2 with
  | false => exact absurd (find_nz_not_found mat shape0 col hf col (le_refl _) hc) hp
  | true =>
    obtain ⟨h1, _, _, h4⟩ := find_nz_found mat shape0 col hf
    have : (find_nz mat shape0 col).1 = col := by
      by_contra hne
      exact hp (h4 col (le_refl _) (by omega))
    exact Prod.ext this hf

/-- One more round of the column loop. -/
theorem reduce_cols_succ {Ty : Type} [Field Ty] [DecidableEq Ty] (shape0 shape1 : Nat)
    (mat : XArray Ty) (k : Nat) (hs : mat.shape0 = shape0) :
    reduce_cols shape0 shape1 mat (k + 1)
      = reduce_col shape0 shape1 (reduce_cols shape0 shape1 mat k).2 k := by
  have e1 := (reduce_cols_done shape0 shape1 mat k hs).1
  unfold reduce_cols at e1 ⊢
  rw [List.range_succ, List.foldl_append]
  simp only [List.foldl_cons, List.foldl_nil]
  generalize (List.range k).foldl _ (Outcome.done, mat) = st at e1 ⊢
  obtain ⟨o, m⟩ := st
  simp only at e1
  subst e1
  rfl

/-- The contents after the elimination loop: every row `i < shape0` other than
row `col` has lost `mat(i, col)` times row `col`. -/
theorem eliminate_data {Ty : Type} [Field Ty] [DecidableEq Ty] (mat : XArray Ty)
    (shape0 shape1 col : Nat) (i j : Nat) :
    (eliminate mat shape0 shape1 col).data i j
      = if i < shape0 ∧ i ≠ col ∧ j < shape1 then
          mat.data i j - mat.data col j * mat.data i col
        else mat.data i j := by
  unfold eliminate
  induction shape0 generalizing i j with
  | zero => simp
  | succ n ih =>
    rw [List.range_succ, List.foldl_append]
    simp only [List.foldl_cons, List.foldl_nil]
    have hn : ∀ j', ((List.range n).foldl
        (fun m i =>
          if i ≠ col ∧ m.data i col ≠ 0 then gauss_move m shape1 col i (m.data i col) else m)
        mat).data n j' = mat.data n j' := by
      intro j'
      rw [ih]
      exact if_neg (by omega)
    have hcol : ∀ j', ((List.range n).foldl
        (fun m i =>
          if i ≠ col ∧ m.data i col ≠ 0 then gauss_move m shape1 col i (m.data i col) else m)
        mat).data col j' = mat.data col j' := by
      intro j'
      rw [ih]
      exact if_neg (fun h => h.2.1 rfl)
    by_cases hi : i = n
    · subst hi
      split
      · rename_i h
        rw [gauss_move_data _ _ _ _ _ h.1, hn, hn, hcol]
        by_cases hj : j < shape1
        · rw [if_pos ⟨rfl, hj⟩, if_pos ⟨by omega, h.1, hj⟩]
        · rw [if_neg (fun x => hj x.2), if_neg (fun x => hj x.2.2)]
      · rename_i h
        rw [hn]
        by_cases hc : i = col
        · rw [if_neg (fun x => x.2.1 hc)]
        · have hz : mat.data i col = 0 := by
            by_contra hz
            exact h ⟨hc, by rw [hn]; exact hz⟩
          rw [hz, mul_zero, sub_zero, ite_self]
    · have e : i < n + 1 ↔ i < n := by omega
      simp only [e]
      split
      · rename_i h
        rw [gauss_move_data _ _ _ _ _ h.1, if_neg (fun x => hi x.1), ih]
      · rw [ih]

/-- A round in which the diagonal entry is non-zero: no row exchange takes
place, row `col` is divided by the diagonal entry, and every other row loses
its entry in column `col` times the divided row. -/
theorem reduce_col_diagonal {Ty : Type} [Field Ty] [DecidableEq Ty] (shape0 shape1 : Nat)
    (mat : XArray Ty) (col : Nat) (hs : mat.shape0 = shape0) (hc : col < shape0)
    (hp : mat.data col col ≠ 0) (i j : Nat) (hi : i < shape0) (hj : j < shape1) :
    (reduce_col shape0 shape1 mat col).1 = Outcome.done ∧
    (reduce_col shape0 shape1 mat col).2.data i j
      = if i = col then mat.data col j / mat.data col col
        else mat.data i j - mat.data col j / mat.data col col * mat.data i col := by
  have hf := find_nz_diagonal mat shape0 col hc hp
  have hf2 : (find_nz mat shape0 col).2 = true := by rw [hf]
  obtain ⟨_, he⟩ := reduce_col_found shape0 shape1 mat col hs hf2
  have hpv : pivot_value shape0 mat col = mat.data col col := by
    unfold pivot_value move_pivot_row
    rw [hf]
    simp
  have hmv : (move_pivot_row mat (find_nz mat shape0 col).1 col).2 = mat := by
    unfold move_pivot_row
    rw [hf]
    simp
  rw [he, hpv, hmv, hf]
  refine ⟨rfl, ?_⟩
  simp only [eliminate_data, divide_row_data]
  by_cases hic : i = col
  · subst hic
    simp [hj]
  · simp [hic, hj, hi]

/-- C19: for a 2 x 2 matrix `[[a, b], [c, d]]` with `a ≠ 0` and
`a*d - b*c ≠ 0`, `invert_gauss_jordan` returns and leaves exactly
`[[d, -b], [-c, a]] / (a*d - b*c)`. -/
theorem invert_gauss_jordan_two_by_two {Ty : Type} [Field Ty] [DecidableEq Ty]
    (a b c d : Ty) (ha : a ≠ 0) (hdet : a * d - b * c ≠ 0) :
    (invert_gauss_jordan (XArray.ofLists [[a, b], [c, d]])).1 = Outcome.done ∧
    (invert_gauss_jordan (XArray.ofLists [[a, b], [c, d]])).2.toLists
      = [[d / (a * d - b * c), -b / (a * d - b * c)],
         [-c / (a * d - b * c), a / (a * d - b * c)]] := by
  have hA0 : (XArray.ofLists [[a, b], [c, d]]).shape0 = 2 := rfl
  have hs0 : (augment (XArray.ofLists [[a, b], [c, d]])).shape0 = 2 :=
    (augment_shape (XArray.ofLists [[a, b], [c, d]])).1
  have hs1 : (augment (XArray.ofLists [[a, b], [c, d]])).shape1 = 4 :=
    (augment_shape (XArray.ofLists [[a, b], [c, d]])).2
  -- the augmented array
  have g : ∀ i j, (augment (XArray.ofLists [[a, b], [c, d]])).data i j
      = if i < 2 ∧ 2 ≤ j ∧ j < 4 then (if j - 2 = i then 1 else 0)
        else if i < 2 ∧ j < 2 then (XArray.ofLists [[a, b], [c, d]]).data i j else 0 :=
    fun i j => augment_data (XArray.ofLists [[a, b], [c, d]]) i j
  have g00 : (augment (XArray.ofLists [[a, b], [c, d]])).data 0 0 = a := by rw [g]; rfl
  have g01 : (augment (XArray.ofLists [[a, b], [c, d]])).data 0 1 = b := by rw [g]; rfl
  have g02 : (augment (XArray.ofLists [[a, b], [c, d]])).data 0 2 = 1 := by rw [g]; rfl
  have g03 : (augment (XArray.ofLists [[a, b], [c, d]])).data 0 3 = 0 := by rw [g]; rfl
  have g10 : (augment (XArray.ofLists [[a, b], [c, d]])).data 1 0 = c := by rw [g]; rfl
  have g11 : (augment (XArray.ofLists [[a, b], [c, d]])).data 1 1 = d := by rw [g]; rfl
  have g12 : (augment (XArray.ofLists [[a, b], [c, d]])).data 1 2 = 0 := by rw [g]; rfl
  have g13 : (augment (XArray.ofLists [[a, b], [c, d]])).data 1 3 = 1 := by rw [g]; rfl
  -- the round of column 0
  have r1 : reduce_cols 2 4 (augment (XArray.ofLists [[a, b], [c, d]])) 1
      = reduce_col 2 4 (augment (XArray.ofLists [[a, b], [c, d]])) 0 :=
    reduce_cols_succ 2 4 _ 0 hs0
  have p0 : (augment (XArray.ofLists [[a, b], [c, d]])).data 0 0 ≠ 0 := by rw [g00]; exact ha
  have m1 : ∀ i j, i < 2 → j < 4 →
      (reduce_cols 2 4 (augment (XArray.ofLists [[a, b], [c, d]])) 1).2.data i j
        = if i = 0 then (augment (XArray.ofLists [[a, b], [c, d]])).data 0 j / a
          else (augment (XArray.ofLists [[a, b], [c, d]])).data i j
            - (augment (XArray.ofLists [[a, b], [c, d]])).data 0 j / a
              * (augment (XArray.ofLists [[a, b], [c, d]])).data i 0 := by
    intro i j hi hj
    rw [r1, (reduce_col_diagonal 2 4 _ 0 hs0 (by omega) p0 i j hi hj).2, g00]
  have m101 := m1 0 1 (by omega) (by omega)
  have m102 := m1 0 2 (by omega) (by omega)
  have m103 := m1 0 3 (by omega) (by omega)
  have m111 := m1 1 1 (by omega) (by omega)
  have m112 := m1 1 2 (by omega) (by omega)
  have m113 := m1 1 3 (by omega) (by omega)
  simp only [if_true, one_ne_zero, if_false, g01, g02, g03, g10, g11, g12, g13]
    at m101 m102 m103 m111 m112 m113
  -- the round of column 1
  have hsm : (reduce_cols 2 4 (augment (XArray.ofLists [[a, b], [c, d]])) 1).2.shape0 = 2 :=
    (reduce_cols_done 2 4 _ 1 hs0).2.1.trans hs0
  have r2 : reduce_cols 2 4 (augment (XArray.ofLists [[a, b], [c, d]])) 2
      = reduce_col 2 4 (reduce_cols 2 4 (augment (XArray.ofLists [[a, b], [c, d]])) 1).2 1 :=
    reduce_cols_succ 2 4 _ 1 hs0
  have hp : d - b / a * c ≠ 0 := by
    intro h
    apply hdet
    field_simp at h
    linear_combination h
  have p1 : (reduce_cols 2 4 (augment (XArray.ofLists [[a, b], [c, d]])) 1).2.data 1 1 ≠ 0 := by
    rw [m111]; exact hp
  have m2 : ∀ i j, i < 2 → j < 4 →
      (reduce_cols 2 4 (augment (XArray.ofLists [[a, b], [c, d]])) 2).2.data i j
        = if i = 1 then
            (reduce_cols 2 4 (augment (XArray.ofLists [[a, b], [c, d]])) 1).2.data 1 j
              / (d - b / a * c)
          else (reduce_cols 2 4 (augment (XArray.ofLists [[a, b], [c, d]])) 1).2.data i j
            - (reduce_cols 2 4 (augment (XArray.ofLists [[a, b], [c, d]])) 1).2.data 1 j
              / (d - b / a * c)
              * (reduce_cols 2 4 (augment (XArray.ofLists [[a, b], [c, d]])) 1).2.data i 1 := by
    intro i j hi hj
    rw [r2, (reduce_col_diagonal 2 4 _ 1 hsm (by omega) p1 i j hi hj).2, m111]
  have m202 := m2 0 2 (by omega) (by omega)
  have m203 := m2 0 3 (by omega) (by omega)
  have m212 := m2 1 2 (by omega) (by omega)
  have m213 := m2 1 3 (by omega) (by omega)
  simp only [if_true, zero_ne_one, if_false, m101, m102, m103, m112, m113]
    at m202 m203 m212 m213
  -- the rounds of columns 2 and 3 find no pivot
  have hsm2 : (reduce_cols 2 4 (augment (XArray.ofLists [[a, b], [c, d]])) 2).2.shape0 = 2 :=
    (reduce_cols_done 2 4 _ 2 hs0).2.1.trans hs0
  have r3 : reduce_cols 2 4 (augment (XArray.ofLists [[a, b], [c, d]])) 3
      = (Outcome.done, (reduce_cols 2 4 (augment (XArray.ofLists [[a, b], [c, d]])) 2).2) := by
    rw [reduce_cols_succ 2 4 _ 2 hs0]
    exact reduce_col_no_pivot 2 4 _ 2 rfl
  have r4 : reduce_cols 2 4 (augment (XArray.ofLists [[a, b], [c, d]])) 4
      = (Outcome.done, (reduce_cols 2 4 (augment (XArray.ofLists [[a, b], [c, d]])) 2).2) := by
    rw [reduce_cols_succ 2 4 _ 3 hs0, r3]
    exact reduce_col_no_pivot 2 4 _ 3 rfl
  have hred : reduce_echelon (augment (XArray.ofLists [[a, b], [c, d]]))
      = (Outcome.done, (reduce_cols 2 4 (augment (XArray.ofLists [[a, b], [c, d]])) 2).2) := by
    unfold reduce_echelon
    simp only [hs0, hs1]
    exact r4
  -- the copy of the right half
  obtain ⟨hd, hB⟩ := invert_gauss_jordan_done (XArray.ofLists [[a, b], [c, d]])
  refine ⟨hd, ?_⟩
  have hsh := copy_back_shape (XArray.ofLists [[a, b], [c, d]])
    (reduce_echelon (augment (XArray.ofLists [[a, b], [c, d]]))).2 2 (2 * 2)
  have e : ∀ i j, i < 2 → j < 2 →
      (invert_gauss_jordan (XArray.ofLists [[a, b], [c, d]])).2.data i j
        = (reduce_cols 2 4 (augment (XArray.ofLists [[a, b], [c, d]])) 2).2.data i (2 + j) := by
    intro i j hi hj
    rw [hB, hA0, copy_back_data, if_pos ⟨hi, hj⟩, hred]
  have t : (invert_gauss_jordan (XArray.ofLists [[a, b], [c, d]])).2.toLists
      = [[(invert_gauss_jordan (XArray.ofLists [[a, b], [c, d]])).2.data 0 0,
          (invert_gauss_jordan (XArray.ofLists [[a, b], [c, d]])).2.data 0 1],
         [(invert_gauss_jordan (XArray.ofLists [[a, b], [c, d]])).2.data 1 0,
          (invert_gauss_jordan (XArray.ofLists [[a, b], [c, d]])).2.data 1 1]] := by
    unfold XArray.toLists
    rw [hB, hA0, hsh.1, hsh.2]
    rfl
  rw [t, e 0 0 (by omega) (by omega), e 0 1 (by omega) (by omega),
    e 1 0 (by omega) (by omega), e 1 1 (by omega) (by omega)]
  simp only [Nat.add_zero, Nat.reduceAdd]
  rw [m202, m203, m212, m213]
  have hpe : d - b / a * c = (a * d - b * c) / a := by
    field_simp
    ring
  have e00 : 1 / a - (0 - 1 / a * c) / (d - b / a * c) * (b / a) = d / (a * d - b * c) := by
    rw [hpe]
    field_simp
    ring
  have e01 : 0 / a - (1 - 0 / a * c) / (d - b / a * c) * (b / a) = -b / (a * d - b * c) := by
    rw [hpe]
    field_simp
    ring
  have e10 : (0 - 1 / a * c) / (d - b / a * c) = -c / (a * d - b * c) := by
    rw [hpe]
    field_simp
    ring
  have e11 : (1 - 0 / a * c) / (d - b / a * c) = a / (a * d - b * c) := by
    rw [hpe]
    field_simp
  rw [e00, e01, e10, e11]

/-- C19, on the first of the hardcoded test matrices,
`[[4, 7.5], [3.0, 13.799]]`. -/
theorem invert_gauss_jordan_two_by_two_witness :
    (invert_gauss_jordan (XArray.ofLists [[4, 15 / 2], [3, 13799 / 1000]] : XArray ℚ)).2.toLists
      = [[(13799 / 1000) / (4 * (13799 / 1000) - 15 / 2 * 3),
          -(15 / 2) / (4 * (13799 / 1000) - 15 / 2 * 3)],
         [-3 / (4 * (13799 / 1000) - 15 / 2 * 3),
          4 / (4 * (13799 / 1000) - 15 / 2 * 3)]] :=
  (invert_gauss_jordan_two_by_two (4 : ℚ) (15 / 2) 3 (13799 / 1000)
    (by decide!) (by decide!)).2

/-! ## The row copies of `swap_row` come before its bounds checks -/

/-- With a row index at or beyond the row count, the checked `swap_row` stops at
the row copies, before the bounds checks are reached. -/
theorem swap_row_checked_out_of_range {Ref Ty : Type} [DecidableEq Ref] (s : Store Ref Ty)
    (mat0 mat1 : Ref) (row0 row1 : Nat)
    (h : (s mat0).shape0 ≤ row0 ∨ (s mat1).shape0 ≤ row1) :
    swap_row_checked s mat0 mat1 row0 row1 = none := by
  unfold swap_row_checked XArray.view_checked
  by_cases h0 : row0 < (s mat0).shape0
  · have h1 : ¬ row1 < (s mat1).shape0 := by omega
    simp [h0, h1]
  · simp [h0]

/-- With both row indices in range and equal column counts, the checked
`swap_row` meets no access outside an array and agrees with `swap_row`. -/
theorem swap_row_checked_eq {Ref Ty : Type} [DecidableEq Ref] (s : Store Ref Ty)
    (mat0 mat1 : Ref) (row0 row1 : Nat) (h0 : row0 < (s mat0).shape0)
    (h1 : row1 < (s mat1).shape0) (hc : (s mat0).shape1 = (s mat1).shape1) :
    swap_row_checked s mat0 mat1 row0 row1 = some (swap_row s mat0 mat1 row0 row1) := by
  unfold swap_row_checked swap_row XArray.view_checked
  have c0 : check_access ((s mat0).shape0, (s mat0).shape1) row0 = true := by
    simp [check_access, h0]
  have c1 : check_access ((s mat1).shape0, (s mat1).shape1) row1 = true := by
    simp [check_access, h1]
  simp only [h0, h1, if_true, Option.bind_eq_bind, Option.some_bind, c0, c1,
    Bool.true_eq_false, if_false]
  by_cases h2 : (s mat0).shape0 = (s mat1).shape0
  · rw [if_neg (not_not.mpr h2), if_neg (not_not.mpr h2)]
    have key := foldlM_eq_some
      (swap_row_step_checked mat0 mat1 row0 row1 ((s mat0).view row0) ((s mat1).view row1))
      (swap_row_step mat0 mat1 row0 row1 ((s mat0).view row0) ((s mat1).view row1))
      (fun t => ∀ r, (t r).shape0 = (s r).shape0 ∧ (t r).shape1 = (s r).shape1)
      (List.range ((s mat0).view row0).size) s (fun _ => ⟨rfl, rfl⟩)
      (by
        intro t i hi ht
        have hi' : i < (s mat0).shape1 := List.mem_range.1 hi
        have e1 : ((s mat1).view row1).read i = some (((s mat1).view row1).data i) := by
          unfold XRow.read
          exact if_pos (by show i < (s mat1).shape1; rw [← hc]; exact hi')
        have e0 : ((s mat0).view row0).read i = some (((s mat0).view row0).data i) := by
          unfold XRow.read
          exact if_pos hi'
        have a0 : t.assign_checked mat0 row0 i (((s mat1).view row1).data i)
            = some (t.assign mat0 row0 i (((s mat1).view row1).data i)) := by
          unfold Store.assign_checked
          rw [if_pos ⟨by rw [(ht mat0).1]; exact h0, by rw [(ht mat0).2]; exact hi'⟩]
        have a1 : (t.assign mat0 row0 i (((s mat1).view row1).data i)).assign_checked
              mat1 row1 i (((s mat0).view row0).data i)
            = some ((t.assign mat0 row0 i (((s mat1).view row1).data i)).assign
              mat1 row1 i (((s mat0).view row0).data i)) := by
          unfold Store.assign_checked
          rw [if_pos ⟨by rw [Store.assign_shape0, (ht mat1).1]; exact h1,
            by rw [Store.assign_shape1, (ht mat1).2, ← hc]; exact hi'⟩]
        constructor
        · unfold swap_row_step_checked swap_row_step
          simp only [e1, e0, a0, a1, Option.bind_eq_bind, Option.some_bind]
        · intro r
          unfold swap_row_step
          rw [Store.assign_shape0, Store.assign_shape1, Store.assign_shape0,
            Store.assign_shape1]
          exact ht r)
    rw [key.1]
    rfl
  · rw [if_pos h2, if_pos h2]

/-- C10: with row index 2 into the 2 x 2 array `[[1,2],[3,4]]` (as `row0`, or as
`row1`), the row copy that `swap_row` takes before its bounds checks reads
outside the array, so the call has no defined outcome and does not reach the
throw of the index error; with the indices 0 and 1 every access is inside its
array and the rows are exchanged. -/
theorem swap_row_copies_before_checks :
    (XArray.ofLists [[1, 2], [3, 4]] : XArray ℚ).view_checked 2 = none ∧
    swap_row_checked (two_arrays (XArray.ofLists [[1, 2], [3, 4]] : XArray ℚ)
        (XArray.ofLists [[5, 6], [7, 8]])) false true 2 0 = none ∧
    swap_row_checked (two_arrays (XArray.ofLists [[5, 6], [7, 8]] : XArray ℚ)
        (XArray.ofLists [[1, 2], [3, 4]])) false true 0 2 = none ∧
    swap_row_checked (two_arrays (XArray.ofLists [[1, 2], [3, 4]] : XArray ℚ)
        (XArray.ofLists [[5, 6], [7, 8]])) false true 0 1
      = some (swap_row (two_arrays (XArray.ofLists [[1, 2], [3, 4]] : XArray ℚ)
        (XArray.ofLists [[5, 6], [7, 8]])) false true 0 1) := by
  refine ⟨rfl, rfl, rfl, ?_⟩
  exact swap_row_checked_eq _ false true 0 1 (by decide) (by decide) rfl

end xt_pg
